import Mathlib

/-!
mpi-test-suite: many-to-one wildcard receive and threaded communicator duplication.

A shallow embedding of `src/p2p/tst_p2p_many_to_one_probe_anysource.c` and
`src/threaded/tst_threaded_comm_dup.c`.

* C `int` values are `Int` in the point-to-point test; in the threaded test, thread
  counts, thread indices, ranks and sizes are `Nat`, as they are never negative.  The
  only arithmetic is `comm_size - 1`, `(thread_num + 1) % num_threads` and
  `100 * comm_rank + thread_num`; the last stays in the range of a C `int` for ranks
  below twenty million, which is assumed.
* The message-passing library is external.  In the point-to-point test it is a state
  machine `MPI σ` whose calls return a `Res`: success with a value, a failure code, or
  a call that never returns.  In the threaded test a scheduler decides which thread
  makes its next call and whether that call succeeds.
* Every library call and every report made by a test is recorded as an event.
-/

namespace Suite

/-- The test environment `struct tst_env`, with the fields the two tests read. -/
structure tst_env where
  comm : Int
  type : Int
  test : Int
  values_num : Int
deriving DecidableEq, Repr

/-- Result of one library call: `ok` is `MPI_SUCCESS` together with the output
arguments, `err` is any other return code, `block` is a blocking call that never
returns. -/
inductive Res (α : Type) where
  | ok (a : α)
  | err (code : Int)
  | block
deriving DecidableEq, Repr

/-- How an execution of a test function ends. -/
inductive Ret where
  | returned (v : Int)
  | aborted
  | blocked
deriving DecidableEq, Repr

/-- Modelled from the spec: the macros `MPI_CHECK` and `ERROR` of `mpi_test_suite.h`
(not part of the sources at hand).  A failed check ends the test activation
(spec 4.6: "does not attempt to continue the activation"); a call that never returns
leaves the function blocked. -/
def MPI_CHECK {α : Type} : Res α → Ret
  | Res.block => Ret.blocked
  | _ => Ret.aborted

end Suite

namespace P2P

open Suite

/-- The fields of `MPI_Status` that the test inspects. -/
structure MPI_Status where
  MPI_SOURCE : Int
  MPI_TAG : Int
deriving DecidableEq, Repr

/-- The library calls and reports of the many-to-one test, in program order. -/
inductive Event where
  | comm_size (r : Res Int)
  | comm_remote_size (r : Res Int)
  | comm_rank (r : Res Int)
  | probe (source tag : Int) (r : Res MPI_Status)
  | recv (count source tag : Int) (r : Res MPI_Status)
  | send (buf : List Int) (count dest tag : Int) (r : Res Unit)
  | error (msg : String)
  | checkstandardarray (seed : Int) (good : Bool)
deriving DecidableEq, Repr

/-- The message-passing library as seen by one process: a state of type `σ` and the
calls the test makes on its communicator.  `MPI_Recv` gets the receive buffer and
hands back the buffer as the library left it. -/
structure MPI (σ : Type) where
  MPI_ANY_SOURCE : Int
  MPI_ANY_TAG : Int
  MPI_Comm_size : σ → Res Int × σ
  MPI_Comm_remote_size : σ → Res Int × σ
  MPI_Comm_rank : σ → Res Int × σ
  MPI_Probe : σ → Int → Int → Res MPI_Status × σ
  MPI_Recv : σ → List Int → Int → Int → Int → Res (MPI_Status × List Int) × σ
  MPI_Send : σ → List Int → Int → Int → Int → Res Unit × σ

/-- The parts of the test harness that the test functions call and that live outside
the two source files: the communicator-class table, the tag generator and the
standard-pattern generator of the type registry. -/
structure Harness where
  TST_MPI_INTRA_COMM : Int
  tst_comm_getcommclass : Int → Int
  tst_hash_value : tst_env → Int
  tst_type_setstandardarray : Int → Int → Int → List Int

/-- Modelled from the spec: `tst_test_checkstandardarray` (not part of the sources at
hand) "recomputes the expected pattern and compares element-wise" (spec 4.1); a
mismatch is a verification failure of the activation (spec 4.6, 7). -/
def tst_test_checkstandardarray (H : Harness) (env : tst_env) (buffer : List Int)
    (seed : Int) : Bool :=
  buffer == H.tst_type_setstandardarray env.type env.values_num seed

/-- What a test function leaves behind: how it ended, the library state, the static
`buffer`, and the events it produced. -/
structure Outcome (σ : Type) where
  ret : Ret
  mpi : σ
  buffer : List Int
  trace : List Event

/-- `tst_p2p_many_to_one_probe_anysource_init`: allocate `buffer` and fill it with
the standard pattern seeded by the rank of the process in the communicator. -/
def tst_p2p_many_to_one_probe_anysource_init {σ : Type} (M : MPI σ) (H : Harness)
    (env : tst_env) (m : σ) : Outcome σ :=
  match M.MPI_Comm_rank m with
  | (Res.ok comm_rank, m1) =>
      { ret := Ret.returned 0, mpi := m1,
        buffer := H.tst_type_setstandardarray env.type env.values_num comm_rank,
        trace := [Event.comm_rank (Res.ok comm_rank)] }
  | (r, m1) =>
      { ret := MPI_CHECK r, mpi := m1, buffer := [], trace := [Event.comm_rank r] }

/-- The status test after `MPI_Probe` (lines 77-79 of the source). -/
def probeStatusBad (comm_size hash_value : Int) (status : MPI_Status) : Bool :=
  decide (status.MPI_SOURCE ≤ 0) || decide (status.MPI_SOURCE ≥ comm_size)
    || decide (status.MPI_TAG ≠ hash_value)

/-- The status test after `MPI_Recv` (lines 86-87 of the source). -/
def recvStatusBad (source tag : Int) (status : MPI_Status) : Bool :=
  decide (status.MPI_SOURCE ≠ source) || decide (status.MPI_TAG ≠ tag)

/-- One pass through the body of the receive loop of rank 0 (lines 72-89).  The
result is `none` when the loop goes on to the next pass and `some r` when the
function ends here. -/
def recvBody {σ : Type} (M : MPI σ) (H : Harness) (env : tst_env)
    (comm_size hash_value : Int) (m : σ) (buffer : List Int) :
    Option Ret × σ × List Int × List Event :=
  match M.MPI_Probe m M.MPI_ANY_SOURCE M.MPI_ANY_TAG with
  | (Res.ok status, m1) =>
      let ev1 := Event.probe M.MPI_ANY_SOURCE M.MPI_ANY_TAG (Res.ok status)
      if probeStatusBad comm_size hash_value status then
        (some Ret.aborted, m1, buffer,
          [ev1, Event.error "Error in status after MPI_Probe"])
      else
        let source := status.MPI_SOURCE
        let tag := status.MPI_TAG
        match M.MPI_Recv m1 buffer env.values_num source tag with
        | (Res.ok (status2, buffer2), m2) =>
            let ev2 := Event.recv env.values_num source tag (Res.ok status2)
            if recvStatusBad source tag status2 then
              (some Ret.aborted, m2, buffer2,
                [ev1, ev2, Event.error "Error in status after MPI_Recv"])
            else
              (none, m2, buffer2,
                [ev1, ev2, Event.checkstandardarray source
                  (tst_test_checkstandardarray H env buffer2 source)])
        | (Res.err c, m2) =>
            (some (MPI_CHECK (Res.err c : Res Unit)), m2, buffer,
              [ev1, Event.recv env.values_num source tag (Res.err c)])
        | (Res.block, m2) =>
            (some (MPI_CHECK (Res.block : Res Unit)), m2, buffer,
              [ev1, Event.recv env.values_num source tag Res.block])
  | (r, m1) =>
      (some (MPI_CHECK r), m1, buffer,
        [Event.probe M.MPI_ANY_SOURCE M.MPI_ANY_TAG r])

/-- The seven ways one pass through the loop body can go. -/
inductive BodyCase {σ : Type} (M : MPI σ) (env : tst_env) (comm_size hash_value : Int)
    (m : σ) (buffer : List Int) : Prop where
  | probe_err (c : Int) (m1 : σ)
      (hP : M.MPI_Probe m M.MPI_ANY_SOURCE M.MPI_ANY_TAG = (Res.err c, m1))
  | probe_block (m1 : σ)
      (hP : M.MPI_Probe m M.MPI_ANY_SOURCE M.MPI_ANY_TAG = (Res.block, m1))
  | probe_bad (status : MPI_Status) (m1 : σ)
      (hP : M.MPI_Probe m M.MPI_ANY_SOURCE M.MPI_ANY_TAG = (Res.ok status, m1))
      (hb : probeStatusBad comm_size hash_value status = true)
  | recv_err (status : MPI_Status) (m1 m2 : σ) (c : Int)
      (hP : M.MPI_Probe m M.MPI_ANY_SOURCE M.MPI_ANY_TAG = (Res.ok status, m1))
      (hb : probeStatusBad comm_size hash_value status = false)
      (hR : M.MPI_Recv m1 buffer env.values_num status.MPI_SOURCE status.MPI_TAG =
        (Res.err c, m2))
  | recv_block (status : MPI_Status) (m1 m2 : σ)
      (hP : M.MPI_Probe m M.MPI_ANY_SOURCE M.MPI_ANY_TAG = (Res.ok status, m1))
      (hb : probeStatusBad comm_size hash_value status = false)
      (hR : M.MPI_Recv m1 buffer env.values_num status.MPI_SOURCE status.MPI_TAG =
        (Res.block, m2))
  | recv_bad (status status2 : MPI_Status) (buffer2 : List Int) (m1 m2 : σ)
      (hP : M.MPI_Probe m M.MPI_ANY_SOURCE M.MPI_ANY_TAG = (Res.ok status, m1))
      (hb : probeStatusBad comm_size hash_value status = false)
      (hR : M.MPI_Recv m1 buffer env.values_num status.MPI_SOURCE status.MPI_TAG =
        (Res.ok (status2, buffer2), m2))
      (hb2 : recvStatusBad status.MPI_SOURCE status.MPI_TAG status2 = true)
  | good (status status2 : MPI_Status) (buffer2 : List Int) (m1 m2 : σ)
      (hP : M.MPI_Probe m M.MPI_ANY_SOURCE M.MPI_ANY_TAG = (Res.ok status, m1))
      (hb : probeStatusBad comm_size hash_value status = false)
      (hR : M.MPI_Recv m1 buffer env.values_num status.MPI_SOURCE status.MPI_TAG =
        (Res.ok (status2, buffer2), m2))
      (hb2 : recvStatusBad status.MPI_SOURCE status.MPI_TAG status2 = false)

/-- The receive loop `for (rank = 0; rank < comm_size-1; rank++)` of rank 0, by
recursion on the number of passes still to make; the loop counter is not read in
the body.  Falling out of the loop reaches `return 0`. -/
def recvLoop {σ : Type} (M : MPI σ) (H : Harness) (env : tst_env)
    (comm_size hash_value : Int) : Nat → σ → List Int → Outcome σ
  | 0, m, buffer => { ret := Ret.returned 0, mpi := m, buffer := buffer, trace := [] }
  | n + 1, m, buffer =>
      match recvBody M H env comm_size hash_value m buffer with
      | (some r, m1, buffer1, evs) =>
          { ret := r, mpi := m1, buffer := buffer1, trace := evs }
      | (none, m1, buffer1, evs) =>
          let o := recvLoop M H env comm_size hash_value n m1 buffer1
          { o with trace := evs ++ o.trace }

/-- Lines 66-95: the branch on `comm_rank`, once `comm_size`, `comm_rank` and
`hash_value` are known. -/
def runBranch {σ : Type} (M : MPI σ) (H : Harness) (env : tst_env)
    (comm_size comm_rank hash_value : Int) (m : σ) (buffer : List Int) : Outcome σ :=
  if comm_rank = 0 then
    recvLoop M H env comm_size hash_value (comm_size - 1).toNat m buffer
  else
    match M.MPI_Send m buffer env.values_num 0 hash_value with
    | (Res.ok u, m1) =>
        { ret := Ret.returned 0, mpi := m1, buffer := buffer,
          trace := [Event.send buffer env.values_num 0 hash_value (Res.ok u)] }
    | (r, m1) =>
        { ret := MPI_CHECK r, mpi := m1, buffer := buffer,
          trace := [Event.send buffer env.values_num 0 hash_value r] }

/-- Lines 58-95: everything after `comm_size` has been fetched. -/
def runWithSize {σ : Type} (M : MPI σ) (H : Harness) (env : tst_env)
    (comm_size : Int) (m : σ) (buffer : List Int) : Outcome σ :=
  match M.MPI_Comm_rank m with
  | (Res.ok comm_rank, m1) =>
      let hash_value := H.tst_hash_value env
      let o := runBranch M H env comm_size comm_rank hash_value m1 buffer
      { o with trace := Event.comm_rank (Res.ok comm_rank) :: o.trace }
  | (r, m1) =>
      { ret := MPI_CHECK r, mpi := m1, buffer := buffer, trace := [Event.comm_rank r] }

/-- Lines 53-56: fetch `comm_size` with the accessor that fits the class of the
communicator.  The event is the call that was made. -/
def fetchSize {σ : Type} (M : MPI σ) (H : Harness) (env : tst_env) (m : σ) :
    Res Int × σ × Event :=
  if H.tst_comm_getcommclass env.comm = H.TST_MPI_INTRA_COMM then
    ((M.MPI_Comm_size m).1, (M.MPI_Comm_size m).2, Event.comm_size (M.MPI_Comm_size m).1)
  else
    ((M.MPI_Comm_remote_size m).1, (M.MPI_Comm_remote_size m).2,
      Event.comm_remote_size (M.MPI_Comm_remote_size m).1)

/-- `tst_p2p_many_to_one_probe_anysource_run`. -/
def tst_p2p_many_to_one_probe_anysource_run {σ : Type} (M : MPI σ) (H : Harness)
    (env : tst_env) (m : σ) (buffer : List Int) : Outcome σ :=
  match fetchSize M H env m with
  | (Res.ok comm_size, m1, ev) =>
      let o := runWithSize M H env comm_size m1 buffer
      { o with trace := ev :: o.trace }
  | (r, m1, ev) =>
      { ret := MPI_CHECK r, mpi := m1, buffer := buffer, trace := [ev] }

/-- An `Outcome` with one more event in front of its trace. -/
def Outcome.after {σ : Type} (e : Event) (o : Outcome σ) : Outcome σ :=
  { o with trace := e :: o.trace }

/-- A call that came back with `MPI_SUCCESS`, or a report that is not a failure. -/
def Event.succeeded : Event → Bool
  | Event.comm_size (Res.ok _) => true
  | Event.comm_remote_size (Res.ok _) => true
  | Event.comm_rank (Res.ok _) => true
  | Event.probe _ _ (Res.ok _) => true
  | Event.recv _ _ _ (Res.ok _) => true
  | Event.send _ _ _ _ (Res.ok _) => true
  | Event.checkstandardarray _ _ => true
  | _ => false

/-- The event is a call of `MPI_Recv`. -/
def Event.isRecv : Event → Bool
  | Event.recv _ _ _ _ => true
  | _ => false

/-- The event is a call of `MPI_Probe`. -/
def Event.isProbe : Event → Bool
  | Event.probe _ _ _ => true
  | _ => false

/-- The payload check of this event, if it is one, found the expected pattern. -/
def Event.verified : Event → Bool
  | Event.checkstandardarray _ good => good
  | _ => true

/-- The trace is exactly `n` wildcard receives: each a successful probe with the two
wildcards, then a successful receive of `count` elements from the probed source with
the probed tag, then the payload check seeded by that source. -/
def wildcardReceives (anySource anyTag count : Int) : Nat → List Event → Bool
  | 0, [] => true
  | n + 1, Event.probe s t (Res.ok st) :: Event.recv c s2 t2 (Res.ok _) ::
      Event.checkstandardarray seed _ :: rest =>
      decide (s = anySource) && decide (t = anyTag) && decide (c = count)
        && decide (s2 = st.MPI_SOURCE) && decide (t2 = st.MPI_TAG)
        && decide (seed = st.MPI_SOURCE)
        && wildcardReceives anySource anyTag count n rest
  | _, _ => false

/-- A run passes when it returns 0 and every payload check found the expected
pattern. -/
def passes {σ : Type} (o : Outcome σ) : Bool :=
  decide (o.ret = Ret.returned 0) && o.trace.all Event.verified

/-! ### A reference library for concrete scenarios -/

/-- A message in flight. -/
structure Msg where
  source : Int
  tag : Int
  data : List Int
deriving DecidableEq, Repr

/-- State of the reference library at one process: the size of the local and of the
remote group, the rank of the process, the messages that have arrived and not been
received (oldest first), and the messages sent so far with their destinations. -/
structure Net where
  size : Int
  remote_size : Int
  rank : Int
  queue : List Msg
  outbox : List (Int × Msg)
deriving DecidableEq, Repr

/-- Wildcard markers of the reference library. -/
def anyMarker : Int := -1

/-- The message matches the envelope asked for. -/
def Msg.fits (source tag : Int) (msg : Msg) : Bool :=
  (decide (source = anyMarker) || decide (msg.source = source))
    && (decide (tag = anyMarker) || decide (msg.tag = tag))

/-- Take the oldest message that fits out of the queue. -/
def takeFit (source tag : Int) : List Msg → Option (Msg × List Msg)
  | [] => none
  | msg :: rest =>
      if msg.fits source tag then some (msg, rest)
      else match takeFit source tag rest with
        | some (found, rest1) => some (found, msg :: rest1)
        | none => none

/-- Reference library: matching is in arrival order, a probe or receive for which
nothing has arrived never returns, a message longer than the receive count is a
truncation failure, and a shorter one overwrites only the front of the buffer. -/
def queueMPI : MPI Net where
  MPI_ANY_SOURCE := anyMarker
  MPI_ANY_TAG := anyMarker
  MPI_Comm_size := fun net => (Res.ok net.size, net)
  MPI_Comm_remote_size := fun net => (Res.ok net.remote_size, net)
  MPI_Comm_rank := fun net => (Res.ok net.rank, net)
  MPI_Probe := fun net source tag =>
    match takeFit source tag net.queue with
    | some (msg, _) => (Res.ok ⟨msg.source, msg.tag⟩, net)
    | none => (Res.block, net)
  MPI_Recv := fun net buffer count source tag =>
    match takeFit source tag net.queue with
    | some (msg, rest) =>
        if (msg.data.length : Int) ≤ count then
          (Res.ok (⟨msg.source, msg.tag⟩, msg.data ++ buffer.drop msg.data.length),
            { net with queue := rest })
        else (Res.err 15, { net with queue := rest })
    | none => (Res.block, net)
  MPI_Send := fun net buffer count dest tag =>
    (Res.ok (), { net with outbox := net.outbox ++
      [(dest, ⟨net.rank, tag, buffer.take count.toNat⟩)] })

/-- A sample harness: class 2 is the intra-group class, every communicator but
number 7 is intra-group, the tag is a fixed function of the identity fields, and
element `i` of the standard pattern with seed `s` is `10 * s + i` (spec 8). -/
def sampleHarness : Harness where
  TST_MPI_INTRA_COMM := 2
  tst_comm_getcommclass := fun comm => if comm = 7 then 4 else 2
  tst_hash_value := fun env => 1000 + 100 * env.comm + 10 * env.type + env.test
  tst_type_setstandardarray := fun _ values_num seed =>
    (List.range values_num.toNat).map (fun i => 10 * seed + (i : Int))

/-- The environment of the concrete scenario: ten elements of the integer type. -/
def sampleEnv : tst_env := { comm := 1, type := 3, test := 5, values_num := 10 }

/-- The same environment on an inter-group communicator. -/
def sampleEnvInter : tst_env := { comm := 7, type := 3, test := 5, values_num := 10 }

/-- Rank `rank` of a group of four with `queue` waiting to be received. -/
def net4 (rank : Int) (queue : List Msg) : Net :=
  { size := 4, remote_size := 4, rank := rank, queue := queue, outbox := [] }

/-- Rank 0 of a local group of `size` processes facing a remote group of `remote_size`
processes, with `queue` waiting to be received. -/
def netSizes (size remote_size : Int) (queue : List Msg) : Net :=
  { size := size, remote_size := remote_size, rank := 0, queue := queue, outbox := [] }

/-- The message is one the root accepts as correct: its source is one of the ranks
`1 .. size-1`, its tag is the tag of the test and its payload is the standard
pattern seeded by its source. -/
def goodMsg (H : Harness) (env : tst_env) (size : Int) (msg : Msg) : Prop :=
  1 ≤ msg.source ∧ msg.source ≤ size - 1 ∧ msg.tag = H.tst_hash_value env ∧
    msg.data = H.tst_type_setstandardarray env.type env.values_num msg.source

instance (H : Harness) (env : tst_env) (size : Int) (msg : Msg) :
    Decidable (goodMsg H env size msg) := by
  unfold goodMsg; infer_instance

/-- The first `n` messages of the queue are there and are good. -/
def firstGood (H : Harness) (env : tst_env) (size : Int) (n : Nat) (queue : List Msg) :
    Prop :=
  n ≤ queue.length ∧ ∀ msg ∈ queue.take n, goodMsg H env size msg

/-- The test as the driver runs it on one process: `init`, then `run` on the buffer
that `init` left. -/
def initThenRun {σ : Type} (M : MPI σ) (H : Harness) (env : tst_env) (m : σ) :
    Outcome σ :=
  tst_p2p_many_to_one_probe_anysource_run M H env
    (tst_p2p_many_to_one_probe_anysource_init M H env m).mpi
    (tst_p2p_many_to_one_probe_anysource_init M H env m).buffer

/-- The messages for rank 0 that process `rank` of a group of four emits when it runs
the test on the reference library. -/
def sentBy (H : Harness) (env : tst_env) (rank : Int) : List Msg :=
  ((initThenRun queueMPI H env (net4 rank [])).mpi.outbox.filter
    (fun p => decide (p.1 = 0))).map Prod.snd

/-- The condition of the concrete scenario as the specification words it: three
messages are received, from pairwise distinct sources in `1 .. 3`, each with the tag
of the test and the standard pattern of its source. -/
def threeDistinctGood (H : Harness) (env : tst_env) (queue : List Msg) : Prop :=
  ∃ m1 m2 m3 rest, queue = m1 :: m2 :: m3 :: rest ∧
    goodMsg H env 4 m1 ∧ goodMsg H env 4 m2 ∧ goodMsg H env 4 m3 ∧
    m1.source ≠ m2.source ∧ m1.source ≠ m3.source ∧ m2.source ≠ m3.source

/-- The same condition without the comparison of the sources with each other. -/
def threeGood (H : Harness) (env : tst_env) (queue : List Msg) : Prop :=
  ∃ m1 m2 m3 rest, queue = m1 :: m2 :: m3 :: rest ∧
    goodMsg H env 4 m1 ∧ goodMsg H env 4 m2 ∧ goodMsg H env 4 m3

/-- The queue at rank 0 when the senders `order` deliver, in that order, what they
send in the sample scenario. -/
def arrivals (order : List Int) : List Msg :=
  order.flatMap (sentBy sampleHarness sampleEnv)

/-- The same on the inter-group communicator of the sample harness. -/
def arrivalsInter (order : List Int) : List Msg :=
  order.flatMap (sentBy sampleHarness sampleEnvInter)

/-- The run uses `S` as its participant count; `m1` is the state of the library after
the size query.  Loop bound: the run never probes more than `S - 1` times, and when
the process has rank 0 and no call and no status check fails, it probes and receives
exactly `S - 1` times and returns 0.  Source check: after any probe that returned a
status, the report "Error in status after MPI_Probe" follows if and only if the
source is `≤ 0` or `≥ S` or the tag is not the tag of the test; and every receive is
from a source in `1 .. S-1`. -/
def usesSize {σ : Type} (M : MPI σ) (H : Harness) (env : tst_env) (m m1 : σ)
    (buffer : List Int) (S : Int) : Prop :=
  ((tst_p2p_many_to_one_probe_anysource_run M H env m buffer).trace.filter
    Event.isProbe).length ≤ (S - 1).toNat ∧
  (∀ m2, M.MPI_Comm_rank m1 = (Res.ok 0, m2) →
    (∀ e ∈ (tst_p2p_many_to_one_probe_anysource_run M H env m buffer).trace,
      e.succeeded = true) →
    (tst_p2p_many_to_one_probe_anysource_run M H env m buffer).ret = Ret.returned 0 ∧
    ((tst_p2p_many_to_one_probe_anysource_run M H env m buffer).trace.filter
      Event.isProbe).length = (S - 1).toNat ∧
    ((tst_p2p_many_to_one_probe_anysource_run M H env m buffer).trace.filter
      Event.isRecv).length = (S - 1).toNat) ∧
  (∀ pre post a b st,
    (tst_p2p_many_to_one_probe_anysource_run M H env m buffer).trace =
      pre ++ Event.probe a b (Res.ok st) :: post →
    (post.head? = some (Event.error "Error in status after MPI_Probe") ↔
      (st.MPI_SOURCE ≤ 0 ∨ st.MPI_SOURCE ≥ S ∨ st.MPI_TAG ≠ H.tst_hash_value env))) ∧
  (∀ c s t r, Event.recv c s t r ∈
    (tst_p2p_many_to_one_probe_anysource_run M H env m buffer).trace → 1 ≤ s ∧ s < S)

end P2P

namespace Threaded

/-- What is fixed for one activation of `tst_threaded_comm_dup` in one process: the
values of `tst_thread_num_threads ()`, `MPI_Comm_size` and `MPI_Comm_rank`, the class
of the communicator with the two class constants it is compared with, whether the
build defines `HAVE_MPI_EXTENDED_COLLECTIVES`, and the two root markers of `mpi.h`. -/
structure Cfg where
  num_threads : Nat
  comm_size : Nat
  comm_rank : Nat
  commclass : Int
  TST_MPI_INTRA_COMM : Int
  TST_MPI_INTER_COMM : Int
  HAVE_MPI_EXTENDED_COLLECTIVES : Bool
  MPI_ROOT : Int
  MPI_PROC_NULL : Int
deriving DecidableEq, Repr

/-- The calls and reports of the threaded test.  `enter` is not a call: it marks the
moment control passes line 74 into the part of `run` that duplicates communicators. -/
inductive Call where
  | queries
  | allocvalues
  | signal_init (n : Nat)
  | enter
  | signal_wait (idx : Nat)
  | malloc (n : Nat)
  | comm_dup (handle : Nat)
  | signal_send (idx : Nat)
  | setstandardarray (seed : Nat)
  | bcast (root : Option Int) (comm : Option Nat)
  | checkstandardarray (seed : Nat)
  | comm_free (comm : Option Nat)
  | freevalues
  | signal_cleanup
  | failure
deriving DecidableEq, Repr

/-- `tst_threaded_comm_dup_init` as executed by the thread with index `thread_num`;
`ok` says whether the two queries of lines 33-34 succeed.  The result is the list of
calls made. -/
def tst_threaded_comm_dup_init (cfg : Cfg) (thread_num : Nat) (ok : Bool) : List Call :=
  if ok then
    [Call.queries, Call.allocvalues] ++
      (if thread_num = 0 then [Call.signal_init cfg.num_threads] else [])
  else [Call.failure]

/-- `tst_threaded_comm_dup_cleanup` as executed by the thread with index
`thread_num`. -/
def tst_threaded_comm_dup_cleanup (thread_num : Nat) : List Call :=
  [Call.freevalues] ++ (if thread_num = 0 then [Call.signal_cleanup] else [])

/-- The events of one activation: thread `k` contributes the calls of its `init` and of
its `cleanup`, each tagged with `k`. -/
def lifecycleEvents (cfg : Cfg) (ok : Nat → Bool) : List (Nat × Call) :=
  (List.range cfg.num_threads).flatMap (fun k =>
    (tst_threaded_comm_dup_init cfg k (ok k) ++ tst_threaded_comm_dup_cleanup k).map
      (fun c => (k, c)))

/-- The event is a call of `tst_thread_signal_init`. -/
def isSignalInit : Nat × Call → Bool
  | (_, Call.signal_init _) => true
  | _ => false

/-- The event is a call of `tst_thread_signal_cleanup`. -/
def isSignalCleanup : Nat × Call → Bool
  | (_, Call.signal_cleanup) => true
  | _ => false

/-! ### The broadcast rounds -/

/-- The thread specific tag of line 91. -/
def bcastTag (cfg : Cfg) (thread_num : Nat) : Nat :=
  100 * cfg.comm_rank + thread_num

/-- The `root` argument of round `i` (lines 92-111).  With
`HAVE_MPI_EXTENDED_COLLECTIVES` it is `i` on an intra-group communicator, one of the
two root markers on an inter-group communicator, and is not assigned for any other
class.  Without it the statement `root = 0;` of line 108 follows the `if` of lines
92-93 and is executed whatever the class. -/
def bcastRoot (cfg : Cfg) (i : Nat) : Option Int :=
  if cfg.HAVE_MPI_EXTENDED_COLLECTIVES then
    if cfg.commclass = cfg.TST_MPI_INTRA_COMM then some (i : Int)
    else if cfg.commclass = cfg.TST_MPI_INTER_COMM then
      (if i = cfg.comm_rank then some cfg.MPI_ROOT else some cfg.MPI_PROC_NULL)
    else none
  else some 0

/-- The calls of round `i` of the loop of lines 85-118 when the broadcast succeeds:
fill the buffer, broadcast on the communicator `comm`, check the buffer.  When the
broadcast fails, the buffer has been filled and the check of `MPI_CHECK` ends the
thread. -/
def bcastRound (cfg : Cfg) (thread_num i : Nat) (comm : Option Nat) : List Call :=
  [Call.setstandardarray (bcastTag cfg thread_num),
   Call.bcast (bcastRoot cfg i) comm,
   Call.checkstandardarray (bcastTag cfg thread_num)]

/-- The seed with which the buffer is filled before the broadcast of a round. -/
def fillSeed (cfg : Cfg) (thread_num i : Nat) : Option Nat :=
  match bcastRound cfg thread_num i none with
  | Call.setstandardarray seed :: _ => some seed
  | _ => none

/-- The seed against which the buffer is checked after the broadcast of a round. -/
def verifySeed (cfg : Cfg) (thread_num i : Nat) : Option Nat :=
  match bcastRound cfg thread_num i none with
  | _ :: _ :: Call.checkstandardarray seed :: _ => some seed
  | _ => none

/-- The seed with which the process that is the root of round `i` on an intra-group
communicator fills its buffer in that round, for the same thread index: the fill seed
of the process whose rank is the `root` argument. -/
def rootFillSeed (cfg : Cfg) (thread_num i : Nat) : Option Nat :=
  match bcastRoot cfg i with
  | some root => fillSeed { cfg with comm_rank := root.toNat } thread_num i
  | none => none

/-! ### The threads of one process running `tst_threaded_comm_dup_run` -/

/-- Where a thread is in `tst_threaded_comm_dup_run`: before the statement named. -/
inductive PC where
  | queries
  | wait
  | alloc
  | dup (i : Nat)
  | signal
  | bcast (i : Nat)
  | free (i : Nat)
  | done
deriving DecidableEq, Repr

/-- The thread has passed line 74. -/
def PC.entered : PC → Bool
  | PC.queries => false
  | PC.wait => false
  | _ => true

/-- The thread has passed line 74 and not yet executed the signal of line 83: it is
in the part of `run` that duplicates communicators. -/
def PC.inSection : PC → Bool
  | PC.alloc => true
  | PC.dup _ => true
  | PC.signal => true
  | _ => false

/-- The thread has executed the signal of line 83. -/
def PC.signalled : PC → Bool
  | PC.bcast _ => true
  | PC.free _ => true
  | PC.done => true
  | _ => false

/-- The number of entries of `new_comms` the thread has filled. -/
def PC.dupCount (n : Nat) : PC → Nat
  | PC.queries => 0
  | PC.wait => 0
  | PC.alloc => 0
  | PC.dup i => i
  | _ => n

/-- The number of entries of `new_comms` the thread has freed. -/
def PC.freeCount (n : Nat) : PC → Nat
  | PC.free i => i
  | PC.done => n
  | _ => 0

/-- State of the threads of one process: for each thread index its place in `run`,
whether a check has ended it, and its array `new_comms`; the signal slots; the next
communicator handle the library will hand out; the events so far, oldest first. -/
structure State where
  pc : Nat → PC
  failed : Nat → Bool
  new_comms : Nat → List Nat
  slot : Nat → Bool
  next : Nat
  log : List (Nat × Call)

/-- Modelled from the spec: `tst_thread_signal_init` (the thread layer is not part of
the sources at hand) "allocates N wait primitives, all initially not signaled"
(spec 4.4). -/
def tst_thread_signal_init (_n : Nat) : Nat → Bool :=
  fun _ => false

/-- Modelled from the spec: `tst_thread_signal_wait` "blocks the calling thread until
`signal(thread_index)` has been invoked" and "consumes the signal" (spec 4.4).  The
result is `none` while the caller has to wait. -/
def tst_thread_signal_wait (idx : Nat) (slot : Nat → Bool) : Option (Nat → Bool) :=
  if slot idx then some (Function.update slot idx false) else none

/-- Modelled from the spec: `tst_thread_signal_send`; the "signal must be latched, not
lost" when the receiver has not reached its wait (spec 4.4). -/
def tst_thread_signal_send (idx : Nat) (slot : Nat → Bool) : Nat → Bool :=
  Function.update slot idx true

/-- The state when the threads are about to call `run`: `init` has been executed and
the signal slots have been initialised by thread 0. -/
def State.initial (cfg : Cfg) : State where
  pc := fun _ => PC.queries
  failed := fun _ => false
  new_comms := fun _ => []
  slot := tst_thread_signal_init cfg.num_threads
  next := 0
  log := []

/-- Head of the loop of lines 77-79. -/
def dupLoop (cfg : Cfg) (i : Nat) : PC :=
  if i < cfg.num_threads then PC.dup i else PC.signal

/-- Head of the loop of lines 120-121; after the loop come `free (new_comms)` and
`return 0`. -/
def freeLoop (cfg : Cfg) (i : Nat) : PC :=
  if i < cfg.num_threads then PC.free i else PC.done

/-- Head of the loop of lines 85-118. -/
def bcastLoop (cfg : Cfg) (i : Nat) : PC :=
  if i < cfg.comm_size then PC.bcast i else freeLoop cfg 0

/-- Thread `k` moves to `pc` and the events `evs` are recorded. -/
def State.advance (s : State) (k : Nat) (pc : PC) (evs : List Call) : State :=
  { s with pc := Function.update s.pc k pc, log := s.log ++ evs.map (fun c => (k, c)) }

/-- A check (`MPI_CHECK` or `ERROR`) ends thread `k`, after the calls `evs` that the
statement made before the check: the thread executes nothing further. -/
def State.fail (s : State) (k : Nat) (evs : List Call) : State :=
  { s with failed := Function.update s.failed k true,
           log := s.log ++ evs.map (fun c => (k, c)) ++ [(k, Call.failure)] }

/-- `tst_threaded_comm_dup_run`, one statement at a time: the next statement of the
function in the thread with index `k` (the value of `tst_thread_get_num ()`);
`ok` says whether the library call (or `malloc`) of that statement succeeds.  The
result is `none` when the thread cannot move: there is no such thread, it has
returned, a check has ended it, or it waits for its signal. -/
def tst_threaded_comm_dup_run (cfg : Cfg) (k : Nat) (ok : Bool) (s : State) : Option State :=
  if k < cfg.num_threads ∧ s.failed k = false then
    match s.pc k with
    | PC.queries =>
        if ok then some (s.advance k PC.wait [Call.queries]) else some (s.fail k [])
    | PC.wait =>
        if k ≠ 0 then
          match tst_thread_signal_wait k s.slot with
          | some slot1 =>
              some ({ s with slot := slot1 }.advance k PC.alloc
                [Call.signal_wait k, Call.enter])
          | none => none
        else some (s.advance k PC.alloc [Call.enter])
    | PC.alloc =>
        if ok then some (s.advance k (dupLoop cfg 0) [Call.malloc cfg.num_threads])
        else some (s.fail k [])
    | PC.dup i =>
        if ok then
          some ({ s with new_comms := Function.update s.new_comms k (s.new_comms k ++ [s.next]),
                         next := s.next + 1 }.advance k (dupLoop cfg (i + 1))
            [Call.comm_dup s.next])
        else some (s.fail k [])
    | PC.signal =>
        some ({ s with slot := tst_thread_signal_send ((k + 1) % cfg.num_threads) s.slot
              }.advance k (bcastLoop cfg 0)
          [Call.signal_send ((k + 1) % cfg.num_threads)])
    | PC.bcast i =>
        if ok then
          some (s.advance k (bcastLoop cfg (i + 1)) (bcastRound cfg k i (s.new_comms k)[k]?))
        else some (s.fail k [Call.setstandardarray (bcastTag cfg k)])
    | PC.free i =>
        if ok then
          some (s.advance k (freeLoop cfg (i + 1)) [Call.comm_free (s.new_comms k)[i]?])
        else some (s.fail k [])
    | PC.done => none
  else none

/-- Run a schedule: each entry names the thread that is to move and says whether its
call succeeds; an entry whose thread cannot move is skipped. -/
def exec (cfg : Cfg) : List (Nat × Bool) → State → State
  | [], s => s
  | (k, ok) :: rest, s =>
      match tst_threaded_comm_dup_run cfg k ok s with
      | some s1 => exec cfg rest s1
      | none => exec cfg rest s

/-- The ways a thread can make one move. -/
inductive Step (cfg : Cfg) (k : Nat) (s s1 : State) : Prop where
  | fail (evs : List Call) (hevs : evs = [] ∨ ∃ seed, evs = [Call.setstandardarray seed])
      (h : s1 = s.fail k evs)
  | queries (hpc : s.pc k = PC.queries) (h : s1 = s.advance k PC.wait [Call.queries])
  | wait0 (hk : k = 0) (hpc : s.pc k = PC.wait)
      (h : s1 = s.advance k PC.alloc [Call.enter])
  | wait (hk : k ≠ 0) (hpc : s.pc k = PC.wait) (hslot : s.slot k = true)
      (h : s1 = { s with slot := Function.update s.slot k false }.advance k PC.alloc
        [Call.signal_wait k, Call.enter])
  | alloc (hpc : s.pc k = PC.alloc)
      (h : s1 = s.advance k (dupLoop cfg 0) [Call.malloc cfg.num_threads])
  | dup (i : Nat) (hpc : s.pc k = PC.dup i)
      (h : s1 = { s with
          new_comms := Function.update s.new_comms k (s.new_comms k ++ [s.next]),
          next := s.next + 1 }.advance k (dupLoop cfg (i + 1)) [Call.comm_dup s.next])
  | signal (hpc : s.pc k = PC.signal)
      (h : s1 = { s with
          slot := (tst_thread_signal_send ((k + 1) % cfg.num_threads) s.slot) }.advance k
        (bcastLoop cfg 0)
        [Call.signal_send ((k + 1) % cfg.num_threads)])
  | bcast (i : Nat) (hpc : s.pc k = PC.bcast i)
      (h : s1 = s.advance k (bcastLoop cfg (i + 1))
        (bcastRound cfg k i (s.new_comms k)[k]?))
  | free (i : Nat) (hpc : s.pc k = PC.free i)
      (h : s1 = s.advance k (freeLoop cfg (i + 1)) [Call.comm_free (s.new_comms k)[i]?])

/-- The state the threads reach from the initial state under a schedule. -/
def reach (cfg : Cfg) (sched : List (Nat × Bool)) : State :=
  exec cfg sched (State.initial cfg)

/-- Every thread has returned from `run`. -/
def allDone (cfg : Cfg) (s : State) : Prop :=
  ∀ k, k < cfg.num_threads → s.pc k = PC.done

/-- The thread indices in the order in which they passed line 74. -/
def enters (log : List (Nat × Call)) : List Nat :=
  log.filterMap (fun e => match e with
    | (k, Call.enter) => some k
    | _ => none)

/-- The signals sent, oldest first: sender and index signalled. -/
def sends (log : List (Nat × Call)) : List (Nat × Nat) :=
  log.filterMap (fun e => match e with
    | (k, Call.signal_send idx) => some (k, idx)
    | _ => none)

/-- The signals consumed by a wait, oldest first: waiting thread and index. -/
def waits (log : List (Nat × Call)) : List (Nat × Nat) :=
  log.filterMap (fun e => match e with
    | (k, Call.signal_wait idx) => some (k, idx)
    | _ => none)

/-- The communicator handles created by `MPI_Comm_dup`, oldest first. -/
def dups (log : List (Nat × Call)) : List Nat :=
  log.filterMap (fun e => match e with
    | (_, Call.comm_dup h) => some h
    | _ => none)

/-- The communicator handles created by thread `k`, oldest first. -/
def dupsBy (k : Nat) (log : List (Nat × Call)) : List Nat :=
  log.filterMap (fun e => match e with
    | (j, Call.comm_dup h) => if j = k then some h else none
    | _ => none)

/-- The communicator handles passed to `MPI_Comm_free`, oldest first. -/
def frees (log : List (Nat × Call)) : List Nat :=
  log.filterMap (fun e => match e with
    | (_, Call.comm_free (some h)) => some h
    | _ => none)

/-- The communicator handles freed by thread `k`, oldest first. -/
def freesBy (k : Nat) (log : List (Nat × Call)) : List Nat :=
  log.filterMap (fun e => match e with
    | (j, Call.comm_free (some h)) => if j = k then some h else none
    | _ => none)

/-- The communicator handles that exist: created and not freed. -/
def live (log : List (Nat × Call)) : List Nat :=
  (dups log).filter (fun h => decide (h ∉ frees log))

/-- The number of threads that have passed line 74. -/
def State.entCount (s : State) : Nat :=
  (enters s.log).length

/-- The number of threads that have executed the signal of line 83, given that the
threads pass line 74 in the order of their indices. -/
def State.sigCount (s : State) : Nat :=
  if 0 < s.entCount ∧ (s.pc (s.entCount - 1)).signalled = true then s.entCount
  else s.entCount - 1

/-- The invariant of the signal ring.  With `m` the number of threads that have passed
line 74: these are the threads `0 .. m-1`, in this order; all of them but possibly the
last have signalled; a slot is signalled exactly when the last of them has signalled
and the slot is the one it signalled; the signals sent are those of threads
`0 .. m-1` (or `0 .. m-2`), in this order; the signals consumed are those of the slots
`1 .. m-1`, in this order. -/
structure RingInv (cfg : Cfg) (s : State) : Prop where
  count_le : s.entCount ≤ cfg.num_threads
  enters_eq : enters s.log = List.range s.entCount
  entered_iff : ∀ j, (s.pc j).entered = true ↔ j < s.entCount
  signalled_below : ∀ j, j + 1 < s.entCount → (s.pc j).signalled = true
  signalled_entered : ∀ j, (s.pc j).signalled = true → (s.pc j).entered = true
  slots : ∀ j, s.slot j = true ↔
    (0 < s.entCount ∧ (s.pc (s.entCount - 1)).signalled = true ∧
      j = s.entCount % cfg.num_threads)
  sends_eq : sends s.log =
    (List.range s.sigCount).map (fun k => (k, (k + 1) % cfg.num_threads))
  waits_eq : waits s.log = (List.range (s.entCount - 1)).map (fun k => (k + 1, k + 1))

/-- The entries of `new_comms` that thread `k` has freed. -/
def State.freed (cfg : Cfg) (s : State) (k : Nat) : List Nat :=
  (s.new_comms k).take ((s.pc k).freeCount cfg.num_threads)

/-- The invariant of the communicator handles.  The loop counters stay below the number
of threads; the array of a thread holds as many handles as its place says; the handles
created are `0, 1, ...` in this order; the handles a thread created are those in its
array and the handles it freed are the first entries of its array; the arrays of the
threads together hold each handle created once; the handles freed are those the
threads have freed from their arrays. -/
structure HandleInv (cfg : Cfg) (s : State) : Prop where
  wf_dup : ∀ k i, s.pc k = PC.dup i → i < cfg.num_threads
  wf_free : ∀ k i, s.pc k = PC.free i → i < cfg.num_threads
  len : ∀ k, (s.new_comms k).length = (s.pc k).dupCount cfg.num_threads
  dups_eq : dups s.log = List.range s.next
  dupsBy_eq : ∀ k, dupsBy k s.log = s.new_comms k
  freesBy_eq : ∀ k, freesBy k s.log = s.freed cfg k
  perm_dups : ((List.range cfg.num_threads).flatMap s.new_comms).Perm (List.range s.next)
  perm_frees : (frees s.log).Perm ((List.range cfg.num_threads).flatMap (s.freed cfg))

/-- A sample configuration: `n` threads in the process of rank `rank` of an
intra-group communicator of size `size`. -/
def sampleCfg (n size rank : Nat) (extended : Bool) : Cfg where
  num_threads := n
  comm_size := size
  comm_rank := rank
  commclass := 2
  TST_MPI_INTRA_COMM := 2
  TST_MPI_INTER_COMM := 4
  HAVE_MPI_EXTENDED_COLLECTIVES := extended
  MPI_ROOT := -3
  MPI_PROC_NULL := -2

/-- A schedule in which thread `k` is given `n` successful moves in a row. -/
def burst (k n : Nat) : List (Nat × Bool) :=
  List.replicate n (k, true)

end Threaded

/-! ## Many-to-one wildcard receive: properties -/

namespace P2P

open Suite

section body

variable {σ : Type} (M : MPI σ) (H : Harness) (env : tst_env)

/-- The loop body when the probe does not succeed. -/
lemma recvBody_probe_err {comm_size hash_value : Int} {m m1 : σ} {buffer : List Int}
    {c : Int} (hP : M.MPI_Probe m M.MPI_ANY_SOURCE M.MPI_ANY_TAG = (Res.err c, m1)) :
    recvBody M H env comm_size hash_value m buffer =
      (some Ret.aborted, m1, buffer,
        [Event.probe M.MPI_ANY_SOURCE M.MPI_ANY_TAG (Res.err c)]) := by
  simp [recvBody, hP, MPI_CHECK]

/-- The loop body when the probe never returns. -/
lemma recvBody_probe_block {comm_size hash_value : Int} {m m1 : σ} {buffer : List Int}
    (hP : M.MPI_Probe m M.MPI_ANY_SOURCE M.MPI_ANY_TAG = (Res.block, m1)) :
    recvBody M H env comm_size hash_value m buffer =
      (some Ret.blocked, m1, buffer,
        [Event.probe M.MPI_ANY_SOURCE M.MPI_ANY_TAG Res.block]) := by
  simp [recvBody, hP, MPI_CHECK]

/-- The loop body when the probed status fails the test of lines 77-79. -/
lemma recvBody_probe_bad {comm_size hash_value : Int} {m m1 : σ} {buffer : List Int}
    {status : MPI_Status}
    (hP : M.MPI_Probe m M.MPI_ANY_SOURCE M.MPI_ANY_TAG = (Res.ok status, m1))
    (hb : probeStatusBad comm_size hash_value status = true) :
    recvBody M H env comm_size hash_value m buffer =
      (some Ret.aborted, m1, buffer,
        [Event.probe M.MPI_ANY_SOURCE M.MPI_ANY_TAG (Res.ok status),
         Event.error "Error in status after MPI_Probe"]) := by
  simp [recvBody, hP, hb]

/-- The loop body when the probed status is accepted and the receive fails. -/
lemma recvBody_recv_err {comm_size hash_value : Int} {m m1 m2 : σ} {buffer : List Int}
    {status : MPI_Status} {c : Int}
    (hP : M.MPI_Probe m M.MPI_ANY_SOURCE M.MPI_ANY_TAG = (Res.ok status, m1))
    (hb : probeStatusBad comm_size hash_value status = false)
    (hR : M.MPI_Recv m1 buffer env.values_num status.MPI_SOURCE status.MPI_TAG =
      (Res.err c, m2)) :
    recvBody M H env comm_size hash_value m buffer =
      (some Ret.aborted, m2, buffer,
        [Event.probe M.MPI_ANY_SOURCE M.MPI_ANY_TAG (Res.ok status),
         Event.recv env.values_num status.MPI_SOURCE status.MPI_TAG (Res.err c)]) := by
  simp [recvBody, hP, hb, hR, MPI_CHECK]

/-- The loop body when the probed status is accepted and the receive never returns. -/
lemma recvBody_recv_block {comm_size hash_value : Int} {m m1 m2 : σ}
    {buffer : List Int} {status : MPI_Status}
    (hP : M.MPI_Probe m M.MPI_ANY_SOURCE M.MPI_ANY_TAG = (Res.ok status, m1))
    (hb : probeStatusBad comm_size hash_value status = false)
    (hR : M.MPI_Recv m1 buffer env.values_num status.MPI_SOURCE status.MPI_TAG =
      (Res.block, m2)) :
    recvBody M H env comm_size hash_value m buffer =
      (some Ret.blocked, m2, buffer,
        [Event.probe M.MPI_ANY_SOURCE M.MPI_ANY_TAG (Res.ok status),
         Event.recv env.values_num status.MPI_SOURCE status.MPI_TAG Res.block]) := by
  simp [recvBody, hP, hb, hR, MPI_CHECK]

/-- The loop body when the status after the receive fails the test of lines 86-87. -/
lemma recvBody_recv_bad {comm_size hash_value : Int} {m m1 m2 : σ} {buffer : List Int}
    {status status2 : MPI_Status} {buffer2 : List Int}
    (hP : M.MPI_Probe m M.MPI_ANY_SOURCE M.MPI_ANY_TAG = (Res.ok status, m1))
    (hb : probeStatusBad comm_size hash_value status = false)
    (hR : M.MPI_Recv m1 buffer env.values_num status.MPI_SOURCE status.MPI_TAG =
      (Res.ok (status2, buffer2), m2))
    (hb2 : recvStatusBad status.MPI_SOURCE status.MPI_TAG status2 = true) :
    recvBody M H env comm_size hash_value m buffer =
      (some Ret.aborted, m2, buffer2,
        [Event.probe M.MPI_ANY_SOURCE M.MPI_ANY_TAG (Res.ok status),
         Event.recv env.values_num status.MPI_SOURCE status.MPI_TAG (Res.ok status2),
         Event.error "Error in status after MPI_Recv"]) := by
  simp [recvBody, hP, hb, hR, hb2]

/-- The loop body when probe and receive succeed and both status tests are passed. -/
lemma recvBody_good {comm_size hash_value : Int} {m m1 m2 : σ} {buffer : List Int}
    {status status2 : MPI_Status} {buffer2 : List Int}
    (hP : M.MPI_Probe m M.MPI_ANY_SOURCE M.MPI_ANY_TAG = (Res.ok status, m1))
    (hb : probeStatusBad comm_size hash_value status = false)
    (hR : M.MPI_Recv m1 buffer env.values_num status.MPI_SOURCE status.MPI_TAG =
      (Res.ok (status2, buffer2), m2))
    (hb2 : recvStatusBad status.MPI_SOURCE status.MPI_TAG status2 = false) :
    recvBody M H env comm_size hash_value m buffer =
      (none, m2, buffer2,
        [Event.probe M.MPI_ANY_SOURCE M.MPI_ANY_TAG (Res.ok status),
         Event.recv env.values_num status.MPI_SOURCE status.MPI_TAG (Res.ok status2),
         Event.checkstandardarray status.MPI_SOURCE
           (tst_test_checkstandardarray H env buffer2 status.MPI_SOURCE)]) := by
  simp [recvBody, hP, hb, hR, hb2]

/-- One of the seven cases always applies. -/
lemma bodyCase (comm_size hash_value : Int) (m : σ) (buffer : List Int) :
    BodyCase M env comm_size hash_value m buffer := by
  rcases hP : M.MPI_Probe m M.MPI_ANY_SOURCE M.MPI_ANY_TAG with ⟨r1, m1⟩
  cases r1 with
  | err c => exact BodyCase.probe_err c m1 hP
  | block => exact BodyCase.probe_block m1 hP
  | ok status =>
    cases hb : probeStatusBad comm_size hash_value status with
    | true => exact BodyCase.probe_bad status m1 hP hb
    | false =>
      rcases hR : M.MPI_Recv m1 buffer env.values_num status.MPI_SOURCE status.MPI_TAG
        with ⟨r2, m2⟩
      cases r2 with
      | err c => exact BodyCase.recv_err status m1 m2 c hP hb hR
      | block => exact BodyCase.recv_block status m1 m2 hP hb hR
      | ok p =>
        obtain ⟨status2, buffer2⟩ := p
        cases hb2 : recvStatusBad status.MPI_SOURCE status.MPI_TAG status2 with
        | true => exact BodyCase.recv_bad status status2 buffer2 m1 m2 hP hb hR hb2
        | false => exact BodyCase.good status status2 buffer2 m1 m2 hP hb hR hb2

/-- The status test after the probe, spelled out. -/
lemma probeStatusBad_false (comm_size hash_value : Int) (status : MPI_Status) :
    probeStatusBad comm_size hash_value status = false ↔
      1 ≤ status.MPI_SOURCE ∧ status.MPI_SOURCE < comm_size ∧
        status.MPI_TAG = hash_value := by
  simp only [probeStatusBad, Bool.or_eq_false_iff, decide_eq_false_iff_not]
  constructor
  · rintro ⟨⟨h1, h2⟩, h3⟩
    exact ⟨by omega, by omega, not_not.mp h3⟩
  · rintro ⟨h1, h2, h3⟩
    exact ⟨⟨by omega, by omega⟩, not_not.mpr h3⟩

/-- Every receive issued by one pass of the loop body is for a source in
`1 .. comm_size-1`, with the expected tag and the element count of the environment. -/
lemma recvBody_recv (comm_size hash_value : Int) (m : σ) (buffer : List Int)
    (c s t : Int) (r : Res MPI_Status)
    (h : Event.recv c s t r ∈ (recvBody M H env comm_size hash_value m buffer).2.2.2) :
    c = env.values_num ∧ 1 ≤ s ∧ s < comm_size ∧ t = hash_value := by
  rcases bodyCase M env comm_size hash_value m buffer with
    ⟨c1, m1, hP⟩ | ⟨m1, hP⟩ | ⟨st, m1, hP, hb⟩ | ⟨st, m1, m2, c1, hP, hb, hR⟩ |
    ⟨st, m1, m2, hP, hb, hR⟩ | ⟨st, st2, b2, m1, m2, hP, hb, hR, hb2⟩ |
    ⟨st, st2, b2, m1, m2, hP, hb, hR, hb2⟩
  · simp [recvBody_probe_err M H env hP] at h
  · simp [recvBody_probe_block M H env hP] at h
  · simp [recvBody_probe_bad M H env hP hb] at h
  · have hb3 := (probeStatusBad_false _ _ _).mp hb
    simp [recvBody_recv_err M H env hP hb hR] at h
    obtain ⟨rfl, rfl, rfl, _⟩ := h
    exact ⟨rfl, hb3⟩
  · have hb3 := (probeStatusBad_false _ _ _).mp hb
    simp [recvBody_recv_block M H env hP hb hR] at h
    obtain ⟨rfl, rfl, rfl, _⟩ := h
    exact ⟨rfl, hb3⟩
  · have hb3 := (probeStatusBad_false _ _ _).mp hb
    simp [recvBody_recv_bad M H env hP hb hR hb2] at h
    obtain ⟨rfl, rfl, rfl, _⟩ := h
    exact ⟨rfl, hb3⟩
  · have hb3 := (probeStatusBad_false _ _ _).mp hb
    simp [recvBody_good M H env hP hb hR hb2] at h
    obtain ⟨rfl, rfl, rfl, _⟩ := h
    exact ⟨rfl, hb3⟩

/-- Every receive issued by the loop is for a source in `1 .. comm_size-1`, with the
expected tag and the element count of the environment. -/
lemma recvLoop_recv (comm_size hash_value : Int) (c s t : Int) (r : Res MPI_Status) :
    ∀ (n : Nat) (m : σ) (buffer : List Int),
      Event.recv c s t r ∈ (recvLoop M H env comm_size hash_value n m buffer).trace →
      c = env.values_num ∧ 1 ≤ s ∧ s < comm_size ∧ t = hash_value := by
  intro n
  induction n with
  | zero => intro m buffer h; simp [recvLoop] at h
  | succ n ih =>
    intro m buffer h
    have hbody := recvBody_recv M H env comm_size hash_value m buffer c s t r
    rcases hB : recvBody M H env comm_size hash_value m buffer with ⟨o, m1, b1, evs⟩
    rw [hB] at hbody
    cases o with
    | some r1 =>
      simp only [recvLoop, hB] at h
      exact hbody h
    | none =>
      simp only [recvLoop, hB, List.mem_append] at h
      rcases h with h | h
      · exact hbody h
      · exact ih m1 b1 h

/-- The loop never asks for a communicator size. -/
lemma recvLoop_no_size (comm_size hash_value : Int) (r : Res Int) :
    ∀ (n : Nat) (m : σ) (buffer : List Int),
      Event.comm_size r ∉ (recvLoop M H env comm_size hash_value n m buffer).trace ∧
      Event.comm_remote_size r ∉
        (recvLoop M H env comm_size hash_value n m buffer).trace := by
  intro n
  induction n with
  | zero => intro m buffer; simp [recvLoop]
  | succ n ih =>
    intro m buffer
    have hbody : ∀ e ∈ (recvBody M H env comm_size hash_value m buffer).2.2.2,
        e ≠ Event.comm_size r ∧ e ≠ Event.comm_remote_size r := by
      rcases bodyCase M env comm_size hash_value m buffer with
        ⟨c1, m1, hP⟩ | ⟨m1, hP⟩ | ⟨st, m1, hP, hb⟩ | ⟨st, m1, m2, c1, hP, hb, hR⟩ |
        ⟨st, m1, m2, hP, hb, hR⟩ | ⟨st, st2, b2, m1, m2, hP, hb, hR, hb2⟩ |
        ⟨st, st2, b2, m1, m2, hP, hb, hR, hb2⟩
      · simp [recvBody_probe_err M H env hP]
      · simp [recvBody_probe_block M H env hP]
      · simp [recvBody_probe_bad M H env hP hb]
      · simp [recvBody_recv_err M H env hP hb hR]
      · simp [recvBody_recv_block M H env hP hb hR]
      · simp [recvBody_recv_bad M H env hP hb hR hb2]
      · simp [recvBody_good M H env hP hb hR hb2]
    rcases hB : recvBody M H env comm_size hash_value m buffer with ⟨o, m1, b1, evs⟩
    rw [hB] at hbody
    cases o with
    | some r1 =>
      simp only [recvLoop, hB]
      exact ⟨fun h => (hbody _ h).1 rfl, fun h => (hbody _ h).2 rfl⟩
    | none =>
      simp only [recvLoop, hB, List.mem_append]
      refine ⟨fun h => ?_, fun h => ?_⟩
      · rcases h with h | h
        · exact (hbody _ h).1 rfl
        · exact (ih m1 b1).1 h
      · rcases h with h | h
        · exact (hbody _ h).2 rfl
        · exact (ih m1 b1).2 h

/-- When every event of the loop succeeded, the loop made all its passes, each one a
wildcard receive, and reached `return 0`. -/
lemma recvLoop_succeeded (comm_size hash_value : Int) :
    ∀ (n : Nat) (m : σ) (buffer : List Int),
      (∀ e ∈ (recvLoop M H env comm_size hash_value n m buffer).trace,
        e.succeeded = true) →
      (recvLoop M H env comm_size hash_value n m buffer).ret = Ret.returned 0 ∧
      wildcardReceives M.MPI_ANY_SOURCE M.MPI_ANY_TAG env.values_num n
        (recvLoop M H env comm_size hash_value n m buffer).trace = true ∧
      ((recvLoop M H env comm_size hash_value n m buffer).trace.filter
        Event.isProbe).length = n ∧
      ((recvLoop M H env comm_size hash_value n m buffer).trace.filter
        Event.isRecv).length = n := by
  intro n
  induction n with
  | zero => intro m buffer _; simp [recvLoop, wildcardReceives]
  | succ n ih =>
    intro m buffer h
    rcases bodyCase M env comm_size hash_value m buffer with
      ⟨c1, m1, hP⟩ | ⟨m1, hP⟩ | ⟨st, m1, hP, hb⟩ | ⟨st, m1, m2, c1, hP, hb, hR⟩ |
      ⟨st, m1, m2, hP, hb, hR⟩ | ⟨st, st2, b2, m1, m2, hP, hb, hR, hb2⟩ |
      ⟨st, st2, b2, m1, m2, hP, hb, hR, hb2⟩
    · simp [recvLoop, recvBody_probe_err M H env hP, Event.succeeded] at h
    · simp [recvLoop, recvBody_probe_block M H env hP, Event.succeeded] at h
    · simp [recvLoop, recvBody_probe_bad M H env hP hb, Event.succeeded] at h
    · simp [recvLoop, recvBody_recv_err M H env hP hb hR, Event.succeeded] at h
    · simp [recvLoop, recvBody_recv_block M H env hP hb hR, Event.succeeded] at h
    · simp [recvLoop, recvBody_recv_bad M H env hP hb hR hb2, Event.succeeded] at h
    · simp only [recvLoop, recvBody_good M H env hP hb hR hb2] at h ⊢
      have ih1 := ih m2 b2 (fun e he => h e (by simp [he]))
      obtain ⟨h1, h2, h3, h4⟩ := ih1
      refine ⟨h1, ?_, ?_, ?_⟩
      · simp [wildcardReceives, h2]
      · simp [List.filter, Event.isProbe, h3]
      · simp [List.filter, Event.isRecv, h4]

/-- The branch on `comm_rank` for the root. -/
lemma runBranch_root (comm_size hash_value : Int) (m : σ) (buffer : List Int) :
    runBranch M H env comm_size 0 hash_value m buffer =
      recvLoop M H env comm_size hash_value (comm_size - 1).toNat m buffer := by
  simp [runBranch]

/-- The branch on `comm_rank` for a process that is not the root: one send to rank 0,
and `return 0` exactly when the send succeeded. -/
lemma runBranch_sender (comm_size comm_rank hash_value : Int) (m : σ)
    (buffer : List Int) (h : comm_rank ≠ 0) :
    (runBranch M H env comm_size comm_rank hash_value m buffer).trace =
      [Event.send buffer env.values_num 0 hash_value
        (M.MPI_Send m buffer env.values_num 0 hash_value).1] ∧
    ((runBranch M H env comm_size comm_rank hash_value m buffer).ret = Ret.returned 0 ↔
      ∃ u, (M.MPI_Send m buffer env.values_num 0 hash_value).1 = Res.ok u) := by
  rcases hS : M.MPI_Send m buffer env.values_num 0 hash_value with ⟨r, m1⟩
  cases r <;> simp [runBranch, h, hS, MPI_CHECK]

/-- Receives of the branch: only the root issues any, and only for a source in
`1 .. comm_size-1` with the expected tag. -/
lemma runBranch_recv (comm_size comm_rank hash_value : Int) (m : σ) (buffer : List Int)
    (c s t : Int) (r : Res MPI_Status)
    (h : Event.recv c s t r ∈
      (runBranch M H env comm_size comm_rank hash_value m buffer).trace) :
    comm_rank = 0 ∧ c = env.values_num ∧ 1 ≤ s ∧ s < comm_size ∧ t = hash_value := by
  by_cases h0 : comm_rank = 0
  · subst h0
    rw [runBranch_root] at h
    exact ⟨rfl, recvLoop_recv M H env comm_size hash_value c s t r _ m buffer h⟩
  · rw [(runBranch_sender M H env comm_size comm_rank hash_value m buffer h0).1] at h
    simp at h

/-- The branch on `comm_rank` never asks for a communicator size. -/
lemma runBranch_no_size (comm_size comm_rank hash_value : Int) (m : σ)
    (buffer : List Int) (r : Res Int) :
    Event.comm_size r ∉
      (runBranch M H env comm_size comm_rank hash_value m buffer).trace ∧
    Event.comm_remote_size r ∉
      (runBranch M H env comm_size comm_rank hash_value m buffer).trace := by
  by_cases h0 : comm_rank = 0
  · subst h0
    rw [runBranch_root]
    exact recvLoop_no_size M H env comm_size hash_value r _ m buffer
  · rw [(runBranch_sender M H env comm_size comm_rank hash_value m buffer h0).1]
    simp

/-- The function after `comm_size` is known, when the rank query succeeds. -/
lemma runWithSize_ok (comm_size comm_rank : Int) (m m1 : σ) (buffer : List Int)
    (hr : M.MPI_Comm_rank m = (Res.ok comm_rank, m1)) :
    runWithSize M H env comm_size m buffer =
      (runBranch M H env comm_size comm_rank (H.tst_hash_value env) m1 buffer).after
        (Event.comm_rank (Res.ok comm_rank)) := by
  simp [runWithSize, hr, Outcome.after]

/-- The trace of the function after `comm_size` is known starts with the rank query;
what follows is empty or the trace of the branch on the rank. -/
lemma runWithSize_trace (comm_size : Int) (m : σ) (buffer : List Int) :
    (runWithSize M H env comm_size m buffer).trace =
        [Event.comm_rank (M.MPI_Comm_rank m).1] ∨
    ∃ comm_rank m1, M.MPI_Comm_rank m = (Res.ok comm_rank, m1) ∧
      (runWithSize M H env comm_size m buffer).trace =
        Event.comm_rank (Res.ok comm_rank) ::
          (runBranch M H env comm_size comm_rank (H.tst_hash_value env) m1 buffer).trace := by
  rcases hr : M.MPI_Comm_rank m with ⟨r, m1⟩
  cases r with
  | ok comm_rank =>
    right
    exact ⟨comm_rank, m1, rfl, by simp [runWithSize, hr]⟩
  | err c => left; simp [runWithSize, hr]
  | block => left; simp [runWithSize, hr]

/-- Lines 58-95 never ask for a communicator size. -/
lemma runWithSize_no_size (comm_size : Int) (m : σ) (buffer : List Int) (r : Res Int) :
    Event.comm_size r ∉ (runWithSize M H env comm_size m buffer).trace ∧
    Event.comm_remote_size r ∉ (runWithSize M H env comm_size m buffer).trace := by
  rcases runWithSize_trace M H env comm_size m buffer with h | ⟨k, m1, _, h⟩
  · rw [h]; simp
  · rw [h]
    have := runBranch_no_size M H env comm_size k (H.tst_hash_value env) m1 buffer r
    simp [this.1, this.2]

/-- Receives of lines 58-95 are for a source in `1 .. comm_size-1` with the tag of
the environment. -/
lemma runWithSize_recv (comm_size : Int) (m : σ) (buffer : List Int)
    (c s t : Int) (r : Res MPI_Status)
    (h : Event.recv c s t r ∈ (runWithSize M H env comm_size m buffer).trace) :
    c = env.values_num ∧ 1 ≤ s ∧ s < comm_size ∧ t = H.tst_hash_value env := by
  rcases runWithSize_trace M H env comm_size m buffer with h1 | ⟨k, m1, _, h1⟩
  · rw [h1] at h; simp at h
  · rw [h1] at h
    simp only [List.mem_cons] at h
    rcases h with h | h
    · cases h
    · exact (runBranch_recv M H env comm_size k _ m1 buffer c s t r h).2

/-- The whole function when the size query succeeds. -/
lemma run_ok (comm_size : Int) (m m1 : σ) (buffer : List Int) (ev : Event)
    (hs : fetchSize M H env m = (Res.ok comm_size, m1, ev)) :
    tst_p2p_many_to_one_probe_anysource_run M H env m buffer =
      (runWithSize M H env comm_size m1 buffer).after ev := by
  simp [tst_p2p_many_to_one_probe_anysource_run, hs, Outcome.after]

/-- The trace of the whole function is the size query alone, or the size query and
then the trace of lines 58-95 with the size that was fetched. -/
lemma run_trace (m : σ) (buffer : List Int) :
    (tst_p2p_many_to_one_probe_anysource_run M H env m buffer).trace =
        [(fetchSize M H env m).2.2] ∨
    ∃ comm_size m1, (fetchSize M H env m).1 = Res.ok comm_size ∧
      (tst_p2p_many_to_one_probe_anysource_run M H env m buffer).trace =
        (fetchSize M H env m).2.2 :: (runWithSize M H env comm_size m1 buffer).trace := by
  rcases hs : fetchSize M H env m with ⟨r, m1, ev⟩
  cases r with
  | ok comm_size =>
    right
    exact ⟨comm_size, m1, rfl, by simp [tst_p2p_many_to_one_probe_anysource_run, hs]⟩
  | err c => left; simp [tst_p2p_many_to_one_probe_anysource_run, hs]
  | block => left; simp [tst_p2p_many_to_one_probe_anysource_run, hs]

/-- Every receive of the whole function carries the tag of the environment. -/
lemma run_recv (m : σ) (buffer : List Int) (c s t : Int) (r : Res MPI_Status)
    (h : Event.recv c s t r ∈
      (tst_p2p_many_to_one_probe_anysource_run M H env m buffer).trace) :
    c = env.values_num ∧ 1 ≤ s ∧ t = H.tst_hash_value env := by
  have hev : ∀ e, (fetchSize M H env m).2.2 = e → e ≠ Event.recv c s t r := by
    intro e he
    unfold fetchSize at he
    split at he <;> (subst he; simp)
  rcases run_trace M H env m buffer with h1 | ⟨k, m1, _, h1⟩
  · rw [h1] at h
    simp only [List.mem_singleton] at h
    exact absurd h.symm (hev _ rfl)
  · rw [h1] at h
    simp only [List.mem_cons] at h
    rcases h with h | h
    · exact absurd h.symm (hev _ rfl)
    · have := runWithSize_recv M H env k m1 buffer c s t r h
      exact ⟨this.1, this.2.1, this.2.2.2⟩

end body

/-- C1: in `tst_p2p_many_to_one_probe_anysource_run`, when the size of the group is
`S ≥ 1`, the process has rank 0, every library call succeeds and no status check
fails, the process issues exactly `S - 1` wildcard receives (a probe with
`MPI_ANY_SOURCE` and `MPI_ANY_TAG`, then one receive of the probed message) and
returns 0; every message it accepts has a source `s` with `1 ≤ s ≤ S - 1` and the tag
`tst_hash_value (env)`. -/
theorem root_issues_all_wildcard_receives {σ : Type} (M : MPI σ) (H : Harness)
    (env : tst_env) (m m1 m2 : σ) (buffer : List Int) (S : Int) (ev : Event)
    (hS : 1 ≤ S)
    (hsize : fetchSize M H env m = (Res.ok S, m1, ev))
    (hrank : M.MPI_Comm_rank m1 = (Res.ok 0, m2))
    (hok : ∀ e ∈ (tst_p2p_many_to_one_probe_anysource_run M H env m buffer).trace,
      e.succeeded = true) :
    (tst_p2p_many_to_one_probe_anysource_run M H env m buffer).ret = Ret.returned 0 ∧
    (∃ tail, (tst_p2p_many_to_one_probe_anysource_run M H env m buffer).trace =
        ev :: Event.comm_rank (Res.ok 0) :: tail ∧
      wildcardReceives M.MPI_ANY_SOURCE M.MPI_ANY_TAG env.values_num (S - 1).toNat tail
        = true ∧
      ((tail.filter Event.isProbe).length : Int) = S - 1 ∧
      ((tail.filter Event.isRecv).length : Int) = S - 1) ∧
    (∀ c s t r, Event.recv c s t r ∈
        (tst_p2p_many_to_one_probe_anysource_run M H env m buffer).trace →
      1 ≤ s ∧ s ≤ S - 1 ∧ t = H.tst_hash_value env) := by
  have hrun : tst_p2p_many_to_one_probe_anysource_run M H env m buffer =
      ((recvLoop M H env S (H.tst_hash_value env) (S - 1).toNat m2 buffer).after
        (Event.comm_rank (Res.ok 0))).after ev := by
    rw [run_ok M H env S m m1 buffer ev hsize, runWithSize_ok M H env S 0 m1 m2 buffer hrank,
      runBranch_root]
  have hloop := recvLoop_succeeded M H env S (H.tst_hash_value env) (S - 1).toNat m2 buffer
    (fun e he => hok e (by
      rw [hrun]; simp only [Outcome.after, List.mem_cons]; exact Or.inr (Or.inr he)))
  obtain ⟨h1, h2, h3, h4⟩ := hloop
  have hn : ((S - 1).toNat : Int) = S - 1 := Int.toNat_of_nonneg (by omega)
  refine ⟨?_, ⟨_, ?_, h2, ?_, ?_⟩, ?_⟩
  · rw [hrun]; exact h1
  · rw [hrun]; rfl
  · rw [h3, hn]
  · rw [h4, hn]
  · intro c s t r hmem
    rw [hrun] at hmem
    simp only [Outcome.after, List.mem_cons] at hmem
    have hrecv := recvLoop_recv M H env S (H.tst_hash_value env) c s t r (S - 1).toNat
      m2 buffer
    rcases hmem with hmem | hmem | hmem
    · have hne : ev ≠ Event.recv c s t r := by
        have : (fetchSize M H env m).2.2 = ev := by rw [hsize]
        unfold fetchSize at this
        split at this <;> (subst this; simp)
      exact absurd hmem.symm hne
    · cases hmem
    · obtain ⟨_, h5, h6, h7⟩ := hrecv hmem
      exact ⟨h5, by omega, h7⟩

section probes

variable {σ : Type} (M : MPI σ) (H : Harness) (env : tst_env)

/-- A list that starts with `e` and contains `x` after `pre`: either `x` is that first
element, or `pre` starts with `e`. -/
lemma cons_eq_append_cons {α : Type} (pre post tl : List α) (x e : α)
    (h : e :: tl = pre ++ x :: post) :
    (pre = [] ∧ e = x ∧ tl = post) ∨
      (∃ rest, pre = e :: rest ∧ tl = rest ++ x :: post) := by
  cases pre with
  | nil =>
    left
    simp only [List.nil_append, List.cons.injEq] at h
    exact ⟨rfl, h.1, h.2⟩
  | cons p rest =>
    right
    simp only [List.cons_append, List.cons.injEq] at h
    exact ⟨rest, by rw [h.1], h.2⟩

/-- In the trace of the receive loop, what follows a successful probe is decided by the
status test of lines 77-79: when the status fails the test, the report of the failure
follows and the function ends there, aborted; when it passes, the receive of the
probed message follows. -/
lemma recvLoop_after_probe (S h : Int) (a b : Int) (st : MPI_Status) (post : List Event) :
    ∀ (n : Nat) (m : σ) (buffer : List Int) (pre : List Event),
      (recvLoop M H env S h n m buffer).trace = pre ++ Event.probe a b (Res.ok st) :: post →
      (probeStatusBad S h st = true →
        post = [Event.error "Error in status after MPI_Probe"] ∧
        (recvLoop M H env S h n m buffer).ret = Ret.aborted) ∧
      (probeStatusBad S h st = false →
        ∃ r rest, post = Event.recv env.values_num st.MPI_SOURCE st.MPI_TAG r :: rest) := by
  intro n
  induction n with
  | zero =>
    intro m buffer pre ht
    simp [recvLoop] at ht
  | succ n ih =>
    intro m buffer pre ht
    rcases bodyCase M env S h m buffer with
      ⟨c1, m1, hP⟩ | ⟨m1, hP⟩ | ⟨st1, m1, hP, hb⟩ | ⟨st1, m1, m2, c1, hP, hb, hR⟩ |
      ⟨st1, m1, m2, hP, hb, hR⟩ | ⟨st1, st2, b2, m1, m2, hP, hb, hR, hb2⟩ |
      ⟨st1, st2, b2, m1, m2, hP, hb, hR, hb2⟩
    · simp only [recvLoop, recvBody_probe_err M H env hP] at ht
      rcases cons_eq_append_cons _ _ _ _ _ ht with ⟨_, h1, _⟩ | ⟨rest, _, h2⟩
      · cases h1
      · simp at h2
    · simp only [recvLoop, recvBody_probe_block M H env hP] at ht
      rcases cons_eq_append_cons _ _ _ _ _ ht with ⟨_, h1, _⟩ | ⟨rest, _, h2⟩
      · cases h1
      · simp at h2
    · simp only [recvLoop, recvBody_probe_bad M H env hP hb] at ht
      rcases cons_eq_append_cons _ _ _ _ _ ht with ⟨_, h1, h3⟩ | ⟨rest, _, h2⟩
      · cases h1
        exact ⟨fun _ => ⟨h3.symm, by simp [recvLoop, recvBody_probe_bad M H env hP hb]⟩,
          fun hf => by rw [hb] at hf; cases hf⟩
      · rcases cons_eq_append_cons _ _ _ _ _ h2 with ⟨_, h1, _⟩ | ⟨rest2, _, h4⟩
        · cases h1
        · simp at h4
    · simp only [recvLoop, recvBody_recv_err M H env hP hb hR] at ht
      rcases cons_eq_append_cons _ _ _ _ _ ht with ⟨_, h1, h3⟩ | ⟨rest, _, h2⟩
      · cases h1
        exact ⟨fun hf => (by rw [hb] at hf; cases hf), fun _ => ⟨_, _, h3.symm⟩⟩
      · rcases cons_eq_append_cons _ _ _ _ _ h2 with ⟨_, h1, _⟩ | ⟨rest2, _, h4⟩
        · cases h1
        · simp at h4
    · simp only [recvLoop, recvBody_recv_block M H env hP hb hR] at ht
      rcases cons_eq_append_cons _ _ _ _ _ ht with ⟨_, h1, h3⟩ | ⟨rest, _, h2⟩
      · cases h1
        exact ⟨fun hf => (by rw [hb] at hf; cases hf), fun _ => ⟨_, _, h3.symm⟩⟩
      · rcases cons_eq_append_cons _ _ _ _ _ h2 with ⟨_, h1, _⟩ | ⟨rest2, _, h4⟩
        · cases h1
        · simp at h4
    · simp only [recvLoop, recvBody_recv_bad M H env hP hb hR hb2] at ht
      rcases cons_eq_append_cons _ _ _ _ _ ht with ⟨_, h1, h3⟩ | ⟨rest, _, h2⟩
      · cases h1
        exact ⟨fun hf => (by rw [hb] at hf; cases hf), fun _ => ⟨_, _, h3.symm⟩⟩
      · rcases cons_eq_append_cons _ _ _ _ _ h2 with ⟨_, h1, _⟩ | ⟨rest2, _, h4⟩
        · cases h1
        · rcases cons_eq_append_cons _ _ _ _ _ h4 with ⟨_, h1, _⟩ | ⟨rest3, _, h5⟩
          · cases h1
          · simp at h5
    · simp only [recvLoop, recvBody_good M H env hP hb hR hb2, List.cons_append,
        List.nil_append] at ht
      rcases cons_eq_append_cons _ _ _ _ _ ht with ⟨_, h1, h3⟩ | ⟨rest, _, h2⟩
      · cases h1
        exact ⟨fun hf => (by rw [hb] at hf; cases hf), fun _ => ⟨_, _, h3.symm⟩⟩
      · rcases cons_eq_append_cons _ _ _ _ _ h2 with ⟨_, h1, _⟩ | ⟨rest2, _, h4⟩
        · cases h1
        · rcases cons_eq_append_cons _ _ _ _ _ h4 with ⟨_, h1, _⟩ | ⟨rest3, _, h5⟩
          · cases h1
          · have hret : (recvLoop M H env S h (n + 1) m buffer).ret =
                (recvLoop M H env S h n m2 b2).ret := by
              simp [recvLoop, recvBody_good M H env hP hb hR hb2]
            rw [hret]
            exact ih m2 b2 rest3 h5

end probes

/-- The event of the size query is one of the two size calls. -/
lemma fetchSize_event {σ : Type} (M : MPI σ) (H : Harness) (env : tst_env) (m : σ) :
    ∃ r, (fetchSize M H env m).2.2 = Event.comm_size r ∨
      (fetchSize M H env m).2.2 = Event.comm_remote_size r := by
  unfold fetchSize
  split
  · exact ⟨_, Or.inl rfl⟩
  · exact ⟨_, Or.inr rfl⟩

/-- The status test of lines 77-79, spelled out. -/
lemma probeStatusBad_true (S h : Int) (st : MPI_Status) :
    probeStatusBad S h st = true ↔
      (st.MPI_SOURCE ≤ 0 ∨ st.MPI_SOURCE ≥ S ∨ st.MPI_TAG ≠ h) := by
  simp [probeStatusBad, or_assoc]

/-- In the trace of the whole function, what follows a successful probe is decided by
the status test of lines 77-79 with the size that the size query returned. -/
lemma run_after_probe {σ : Type} (M : MPI σ) (H : Harness)
    (env : tst_env) (m m1 : σ) (buffer : List Int) (S : Int) (ev : Event)
    (pre post : List Event) (a b : Int) (st : MPI_Status)
    (hsize : fetchSize M H env m = (Res.ok S, m1, ev))
    (ht : (tst_p2p_many_to_one_probe_anysource_run M H env m buffer).trace =
      pre ++ Event.probe a b (Res.ok st) :: post) :
    (probeStatusBad S (H.tst_hash_value env) st = true →
      post = [Event.error "Error in status after MPI_Probe"] ∧
      (tst_p2p_many_to_one_probe_anysource_run M H env m buffer).ret = Ret.aborted) ∧
    (probeStatusBad S (H.tst_hash_value env) st = false →
      ∃ r rest, post = Event.recv env.values_num st.MPI_SOURCE st.MPI_TAG r :: rest) := by
  have hev : ev ≠ Event.probe a b (Res.ok st) := by
    obtain ⟨r, hr⟩ := fetchSize_event M H env m
    rw [hsize] at hr
    rcases hr with hr | hr <;> (simp only at hr; rw [hr]; simp)
  rw [run_ok M H env S m m1 buffer ev hsize] at ht ⊢
  simp only [Outcome.after] at ht ⊢
  rcases cons_eq_append_cons _ _ _ _ _ ht with ⟨_, h1, _⟩ | ⟨rest, _, h2⟩
  · exact absurd h1 hev
  · rcases hr : M.MPI_Comm_rank m1 with ⟨r, m2⟩
    have hfail : ∀ r0 : Res Int, (∀ k, r0 ≠ Res.ok k) → M.MPI_Comm_rank m1 = (r0, m2) →
        (runWithSize M H env S m1 buffer).trace = [Event.comm_rank r0] := by
      intro r0 hne hr0
      cases r0 with
      | ok k => exact absurd rfl (hne k)
      | err c => simp [runWithSize, hr0]
      | block => simp [runWithSize, hr0]
    cases r with
    | ok comm_rank =>
      rw [runWithSize_ok M H env S comm_rank m1 m2 buffer hr] at h2 ⊢
      simp only [Outcome.after] at h2 ⊢
      rcases cons_eq_append_cons _ _ _ _ _ h2 with ⟨_, h1, _⟩ | ⟨rest2, _, h3⟩
      · cases h1
      · by_cases h0 : comm_rank = 0
        · subst h0
          rw [runBranch_root] at h3 ⊢
          exact recvLoop_after_probe M H env S _ a b st post _ m2 buffer rest2 h3
        · rw [(runBranch_sender M H env S comm_rank _ m2 buffer h0).1] at h3
          rcases cons_eq_append_cons _ _ _ _ _ h3 with ⟨_, h1, _⟩ | ⟨rest3, _, h4⟩
          · cases h1
          · simp at h4
    | err c =>
      rw [hfail (Res.err c) (by simp) hr] at h2
      rcases cons_eq_append_cons _ _ _ _ _ h2 with ⟨_, h1, _⟩ | ⟨rest2, _, h3⟩
      · cases h1
      · simp at h3
    | block =>
      rw [hfail Res.block (by simp) hr] at h2
      rcases cons_eq_append_cons _ _ _ _ _ h2 with ⟨_, h1, _⟩ | ⟨rest2, _, h3⟩
      · cases h1
      · simp at h3

/-- After a successful probe the report of a bad status is the next event exactly when
the status fails the test of lines 77-79. -/
lemma run_probe_report_iff {σ : Type} (M : MPI σ) (H : Harness)
    (env : tst_env) (m m1 : σ) (buffer : List Int) (S : Int) (ev : Event)
    (pre post : List Event) (a b : Int) (st : MPI_Status)
    (hsize : fetchSize M H env m = (Res.ok S, m1, ev))
    (ht : (tst_p2p_many_to_one_probe_anysource_run M H env m buffer).trace =
      pre ++ Event.probe a b (Res.ok st) :: post) :
    post.head? = some (Event.error "Error in status after MPI_Probe") ↔
      (st.MPI_SOURCE ≤ 0 ∨ st.MPI_SOURCE ≥ S ∨ st.MPI_TAG ≠ H.tst_hash_value env) := by
  have key := run_after_probe M H env m m1 buffer S ev pre post a b st hsize ht
  have hcond := probeStatusBad_true S (H.tst_hash_value env) st
  constructor
  · intro hhead
    by_contra hc
    have hb : probeStatusBad S (H.tst_hash_value env) st = false := by
      rw [← hcond] at hc
      simpa using hc
    obtain ⟨r, rest, hpost⟩ := key.2 hb
    rw [hpost] at hhead
    simp at hhead
  · intro hc
    rw [(key.1 (hcond.mpr hc)).1]
    rfl

/-- C2: in a run of `tst_p2p_many_to_one_probe_anysource_run` with group size `S` and
expected tag `tst_hash_value (env)`, take any probe that returned a status
`(source, tag)`.  The next event is the report "Error in status after MPI_Probe" if
and only if `source ≤ 0` or `source ≥ S` or the tag differs from the expected one.
When it is reported, the report is the last event and the function ends there, so no
receive is issued for the message; otherwise the next event is the receive of the
probed message. -/
theorem probe_status_mismatch_reported {σ : Type} (M : MPI σ) (H : Harness)
    (env : tst_env) (m m1 : σ) (buffer : List Int) (S : Int) (ev : Event)
    (pre post : List Event) (a b : Int) (st : MPI_Status)
    (hsize : fetchSize M H env m = (Res.ok S, m1, ev))
    (ht : (tst_p2p_many_to_one_probe_anysource_run M H env m buffer).trace =
      pre ++ Event.probe a b (Res.ok st) :: post) :
    (post.head? = some (Event.error "Error in status after MPI_Probe") ↔
      (st.MPI_SOURCE ≤ 0 ∨ st.MPI_SOURCE ≥ S ∨ st.MPI_TAG ≠ H.tst_hash_value env)) ∧
    ((st.MPI_SOURCE ≤ 0 ∨ st.MPI_SOURCE ≥ S ∨ st.MPI_TAG ≠ H.tst_hash_value env) →
      post = [Event.error "Error in status after MPI_Probe"] ∧
      (tst_p2p_many_to_one_probe_anysource_run M H env m buffer).ret = Ret.aborted) ∧
    (¬ (st.MPI_SOURCE ≤ 0 ∨ st.MPI_SOURCE ≥ S ∨ st.MPI_TAG ≠ H.tst_hash_value env) →
      ∃ r rest, post = Event.recv env.values_num st.MPI_SOURCE st.MPI_TAG r :: rest) := by
  have key := run_after_probe M H env m m1 buffer S ev pre post a b st hsize ht
  have hcond := probeStatusBad_true S (H.tst_hash_value env) st
  refine ⟨?_, fun hc => key.1 (hcond.mpr hc), fun hc => key.2 ?_⟩
  · exact run_probe_report_iff M H env m m1 buffer S ev pre post a b st hsize ht
  · rw [← hcond] at hc
    simpa using hc

/-- The loop probes at most once in each pass. -/
lemma recvLoop_probe_count {σ : Type} (M : MPI σ) (H : Harness) (env : tst_env)
    (comm_size hash_value : Int) :
    ∀ (n : Nat) (m : σ) (buffer : List Int),
      ((recvLoop M H env comm_size hash_value n m buffer).trace.filter
        Event.isProbe).length ≤ n := by
  intro n
  induction n with
  | zero => intro m buffer; simp [recvLoop]
  | succ n ih =>
    intro m buffer
    rcases bodyCase M env comm_size hash_value m buffer with
      ⟨c1, m1, hP⟩ | ⟨m1, hP⟩ | ⟨st, m1, hP, hb⟩ | ⟨st, m1, m2, c1, hP, hb, hR⟩ |
      ⟨st, m1, m2, hP, hb, hR⟩ | ⟨st, st2, b2, m1, m2, hP, hb, hR, hb2⟩ |
      ⟨st, st2, b2, m1, m2, hP, hb, hR, hb2⟩
    · simp [recvLoop, recvBody_probe_err M H env hP, List.filter, Event.isProbe]
    · simp [recvLoop, recvBody_probe_block M H env hP, List.filter, Event.isProbe]
    · simp [recvLoop, recvBody_probe_bad M H env hP hb, List.filter, Event.isProbe]
    · simp [recvLoop, recvBody_recv_err M H env hP hb hR, List.filter, Event.isProbe]
    · simp [recvLoop, recvBody_recv_block M H env hP hb hR, List.filter, Event.isProbe]
    · simp [recvLoop, recvBody_recv_bad M H env hP hb hR hb2, List.filter, Event.isProbe]
    · have := ih m2 b2
      simp only [recvLoop, recvBody_good M H env hP hb hR hb2]
      simp [List.filter, Event.isProbe]
      omega

/-- The whole function probes at most `comm_size - 1` times, with the size that the
size query returned. -/
lemma run_probe_count {σ : Type} (M : MPI σ) (H : Harness) (env : tst_env)
    (m m1 : σ) (buffer : List Int) (S : Int) (ev : Event)
    (hsize : fetchSize M H env m = (Res.ok S, m1, ev)) :
    ((tst_p2p_many_to_one_probe_anysource_run M H env m buffer).trace.filter
      Event.isProbe).length ≤ (S - 1).toNat := by
  have hev : ev.isProbe = false := by
    obtain ⟨r, hr⟩ := fetchSize_event M H env m
    rw [hsize] at hr
    rcases hr with hr | hr <;> (simp only at hr; rw [hr]; rfl)
  rw [run_ok M H env S m m1 buffer ev hsize]
  simp only [Outcome.after, List.filter_cons, hev]
  rcases runWithSize_trace M H env S m1 buffer with h | ⟨k, m2, _, h⟩
  · rw [h]; simp [List.filter, Event.isProbe]
  · rw [h]
    have e1 : Event.isProbe (Event.comm_rank (Res.ok k)) = false := rfl
    simp only [List.filter_cons, e1]
    by_cases h0 : k = 0
    · subst h0
      rw [runBranch_root]
      simpa using recvLoop_probe_count M H env S _ _ m2 buffer
    · rw [(runBranch_sender M H env S k _ m2 buffer h0).1]
      simp [List.filter, Event.isProbe]

/-- When the root meets no failure, the whole function probes and receives exactly
`comm_size - 1` times and returns 0. -/
lemma run_root_counts {σ : Type} (M : MPI σ) (H : Harness) (env : tst_env)
    (m m1 m2 : σ) (buffer : List Int) (S : Int) (ev : Event)
    (hsize : fetchSize M H env m = (Res.ok S, m1, ev))
    (hrank : M.MPI_Comm_rank m1 = (Res.ok 0, m2))
    (hok : ∀ e ∈ (tst_p2p_many_to_one_probe_anysource_run M H env m buffer).trace,
      e.succeeded = true) :
    (tst_p2p_many_to_one_probe_anysource_run M H env m buffer).ret = Ret.returned 0 ∧
    ((tst_p2p_many_to_one_probe_anysource_run M H env m buffer).trace.filter
      Event.isProbe).length = (S - 1).toNat ∧
    ((tst_p2p_many_to_one_probe_anysource_run M H env m buffer).trace.filter
      Event.isRecv).length = (S - 1).toNat := by
  have hrun : tst_p2p_many_to_one_probe_anysource_run M H env m buffer =
      ((recvLoop M H env S (H.tst_hash_value env) (S - 1).toNat m2 buffer).after
        (Event.comm_rank (Res.ok 0))).after ev := by
    rw [run_ok M H env S m m1 buffer ev hsize, runWithSize_ok M H env S 0 m1 m2 buffer hrank,
      runBranch_root]
  have hloop := recvLoop_succeeded M H env S (H.tst_hash_value env) (S - 1).toNat m2 buffer
    (fun e he => hok e (by
      rw [hrun]; simp only [Outcome.after, List.mem_cons]; exact Or.inr (Or.inr he)))
  obtain ⟨h1, -, h3, h4⟩ := hloop
  have hev : ev.isProbe = false ∧ ev.isRecv = false := by
    obtain ⟨r, hr⟩ := fetchSize_event M H env m
    rw [hsize] at hr
    rcases hr with hr | hr <;> (simp only at hr; rw [hr]; exact ⟨rfl, rfl⟩)
  have e1 : Event.isProbe (Event.comm_rank (Res.ok 0)) = false := rfl
  have e2 : Event.isRecv (Event.comm_rank (Res.ok 0)) = false := rfl
  rw [hrun]
  refine ⟨h1, ?_, ?_⟩
  · simpa [Outcome.after, List.filter_cons, hev.1, e1] using h3
  · simpa [Outcome.after, List.filter_cons, hev.2, e2] using h4

/-- Every receive of the whole function is from a source in `1 .. comm_size - 1`, with
the size that the size query returned. -/
lemma run_recv_source {σ : Type} (M : MPI σ) (H : Harness) (env : tst_env)
    (m m1 : σ) (buffer : List Int) (S : Int) (ev : Event)
    (hsize : fetchSize M H env m = (Res.ok S, m1, ev))
    (c s t : Int) (r : Res MPI_Status)
    (hmem : Event.recv c s t r ∈
      (tst_p2p_many_to_one_probe_anysource_run M H env m buffer).trace) :
    1 ≤ s ∧ s < S := by
  rw [run_ok M H env S m m1 buffer ev hsize] at hmem
  simp only [Outcome.after, List.mem_cons] at hmem
  rcases hmem with hmem | hmem
  · obtain ⟨r0, hr0⟩ := fetchSize_event M H env m
    rw [hsize] at hr0
    rcases hr0 with hr0 | hr0 <;> (simp only at hr0; rw [hr0] at hmem; cases hmem)
  · have := runWithSize_recv M H env S m1 buffer c s t r hmem
    exact ⟨this.2.1, this.2.2.1⟩

/-- The whole function uses the size that the size query returned as its participant
count. -/
lemma run_uses_size {σ : Type} (M : MPI σ) (H : Harness) (env : tst_env)
    (m m1 : σ) (buffer : List Int) (S : Int) (ev : Event)
    (hsize : fetchSize M H env m = (Res.ok S, m1, ev)) :
    usesSize M H env m m1 buffer S :=
  ⟨run_probe_count M H env m m1 buffer S ev hsize,
    fun m2 hrank hok => run_root_counts M H env m m1 m2 buffer S ev hsize hrank hok,
    fun pre post a b st ht =>
      run_probe_report_iff M H env m m1 buffer S ev pre post a b st hsize ht,
    fun c s t r hmem => run_recv_source M H env m m1 buffer S ev hsize c s t r hmem⟩

/-- C7: the participant count of `tst_p2p_many_to_one_probe_anysource_run` is the value
that `MPI_Comm_size` returned when the class of the communicator is the intra-group
class, and the value that `MPI_Comm_remote_size` returned for every other class, and
the accessor of the other kind is never called.  That value `S` is the loop bound (a
root that meets no failure probes and receives exactly `S - 1` times, and no run
probes more often) and the upper bound of the source check (a probed status is
reported exactly when its source is `≤ 0` or `≥ S` or its tag is wrong, and every
receive is from a source in `1 .. S-1`). -/
theorem size_accessor_by_class {σ : Type} (M : MPI σ) (H : Harness) (env : tst_env)
    (m : σ) (buffer : List Int) :
    (H.tst_comm_getcommclass env.comm = H.TST_MPI_INTRA_COMM →
      (∀ r, Event.comm_remote_size r ∉
        (tst_p2p_many_to_one_probe_anysource_run M H env m buffer).trace) ∧
      (∀ S m1, M.MPI_Comm_size m = (Res.ok S, m1) → usesSize M H env m m1 buffer S)) ∧
    (H.tst_comm_getcommclass env.comm ≠ H.TST_MPI_INTRA_COMM →
      (∀ r, Event.comm_size r ∉
        (tst_p2p_many_to_one_probe_anysource_run M H env m buffer).trace) ∧
      (∀ S m1, M.MPI_Comm_remote_size m = (Res.ok S, m1) →
        usesSize M H env m m1 buffer S)) := by
  constructor
  · intro hc
    have hf : fetchSize M H env m = ((M.MPI_Comm_size m).1, (M.MPI_Comm_size m).2,
        Event.comm_size (M.MPI_Comm_size m).1) := by
      simp [fetchSize, hc]
    constructor
    · intro r hmem
      rcases run_trace M H env m buffer with h1 | ⟨k, m1, _, h1⟩
      · rw [h1, hf] at hmem; simp at hmem
      · rw [h1, hf] at hmem
        simp only [List.mem_cons] at hmem
        rcases hmem with hmem | hmem
        · cases hmem
        · exact (runWithSize_no_size M H env k m1 buffer r).2 hmem
    · intro S m1 hs
      rw [hs] at hf
      exact run_uses_size M H env m m1 buffer S _ hf
  · intro hc
    have hf : fetchSize M H env m = ((M.MPI_Comm_remote_size m).1,
        (M.MPI_Comm_remote_size m).2,
        Event.comm_remote_size (M.MPI_Comm_remote_size m).1) := by
      simp [fetchSize, hc]
    constructor
    · intro r hmem
      rcases run_trace M H env m buffer with h1 | ⟨k, m1, _, h1⟩
      · rw [h1, hf] at hmem; simp at hmem
      · rw [h1, hf] at hmem
        simp only [List.mem_cons] at hmem
        rcases hmem with hmem | hmem
        · cases hmem
        · exact (runWithSize_no_size M H env k m1 buffer r).1 hmem
    · intro S m1 hs
      rw [hs] at hf
      exact run_uses_size M H env m m1 buffer S _ hf

/-- C8: a process whose rank in the communicator is not 0 makes, after the two
queries, exactly one call: a send of `env.values_num` elements to rank 0 with the tag
`tst_hash_value (env)`, and no probe or receive; and every message that a root running
with the same `env` (on any library, in any state) goes on to receive has that same
tag, each side computing it from `env` alone. -/
theorem sender_tag_is_root_tag {σ : Type} (M : MPI σ) (H : Harness) (env : tst_env)
    (m m1 m2 : σ) (buffer : List Int) (S comm_rank : Int) (ev : Event)
    (hsize : fetchSize M H env m = (Res.ok S, m1, ev))
    (hrank : M.MPI_Comm_rank m1 = (Res.ok comm_rank, m2))
    (hne : comm_rank ≠ 0) :
    (tst_p2p_many_to_one_probe_anysource_run M H env m buffer).trace =
      [ev, Event.comm_rank (Res.ok comm_rank),
        Event.send buffer env.values_num 0 (H.tst_hash_value env)
          (M.MPI_Send m2 buffer env.values_num 0 (H.tst_hash_value env)).1] ∧
    (∀ (τ : Type) (M0 : MPI τ) (m0 : τ) (buffer0 : List Int) (c s t : Int)
        (r : Res MPI_Status),
      Event.recv c s t r ∈
        (tst_p2p_many_to_one_probe_anysource_run M0 H env m0 buffer0).trace →
      t = H.tst_hash_value env) := by
  constructor
  · rw [run_ok M H env S m m1 buffer ev hsize,
      runWithSize_ok M H env S comm_rank m1 m2 buffer hrank]
    simp [Outcome.after,
      (runBranch_sender M H env S comm_rank (H.tst_hash_value env) m2 buffer hne).1]
  · intro τ M0 m0 buffer0 c s t r hmem
    exact (run_recv M0 H env m0 buffer0 c s t r hmem).2.2

section queue

variable (H : Harness) (env : tst_env)

lemma takeFit_any (msg : Msg) (rest : List Msg) :
    takeFit anyMarker anyMarker (msg :: rest) = some (msg, rest) := by
  simp [takeFit, Msg.fits]

lemma takeFit_self (msg : Msg) (rest : List Msg) :
    takeFit msg.source msg.tag (msg :: rest) = some (msg, rest) := by
  simp [takeFit, Msg.fits]

/-- With nothing in the queue the probe of the loop body never returns. -/
lemma queue_body_empty (S h : Int) (net : Net) (buffer : List Int)
    (hq : net.queue = []) :
    recvBody queueMPI H env S h net buffer =
      (some Ret.blocked, net, buffer, [Event.probe anyMarker anyMarker Res.block]) := by
  have hP : queueMPI.MPI_Probe net queueMPI.MPI_ANY_SOURCE queueMPI.MPI_ANY_TAG =
      (Res.block, net) := by
    simp [queueMPI, hq, takeFit]
  exact recvBody_probe_block queueMPI H env hP

/-- With a message at the head of the queue whose envelope fails the status test, the
loop body reports it and ends. -/
lemma queue_body_bad (S h : Int) (net : Net) (buffer : List Int) (msg : Msg)
    (rest : List Msg) (hq : net.queue = msg :: rest)
    (hb : probeStatusBad S h ⟨msg.source, msg.tag⟩ = true) :
    (recvBody queueMPI H env S h net buffer).1 = some Ret.aborted := by
  have hP : queueMPI.MPI_Probe net queueMPI.MPI_ANY_SOURCE queueMPI.MPI_ANY_TAG =
      (Res.ok ⟨msg.source, msg.tag⟩, net) := by
    simp [queueMPI, hq, takeFit_any]
  rw [recvBody_probe_bad queueMPI H env hP hb]

/-- With a message at the head of the queue whose envelope passes the status test and
whose length is within the receive count, the loop body receives it, checks the
payload against the pattern of its source, and goes on. -/
lemma queue_body_good (S h : Int) (net : Net) (buffer : List Int) (msg : Msg)
    (rest : List Msg) (hq : net.queue = msg :: rest)
    (hb : probeStatusBad S h ⟨msg.source, msg.tag⟩ = false)
    (hlen : (msg.data.length : Int) ≤ env.values_num) :
    recvBody queueMPI H env S h net buffer =
      (none, { net with queue := rest }, msg.data ++ buffer.drop msg.data.length,
        [Event.probe anyMarker anyMarker (Res.ok ⟨msg.source, msg.tag⟩),
         Event.recv env.values_num msg.source msg.tag (Res.ok ⟨msg.source, msg.tag⟩),
         Event.checkstandardarray msg.source
           (tst_test_checkstandardarray H env (msg.data ++ buffer.drop msg.data.length)
             msg.source)]) := by
  have hP : queueMPI.MPI_Probe net queueMPI.MPI_ANY_SOURCE queueMPI.MPI_ANY_TAG =
      (Res.ok ⟨msg.source, msg.tag⟩, net) := by
    simp [queueMPI, hq, takeFit_any]
  have hR : queueMPI.MPI_Recv net buffer env.values_num
      (MPI_Status.mk msg.source msg.tag).MPI_SOURCE
      (MPI_Status.mk msg.source msg.tag).MPI_TAG =
      (Res.ok (⟨msg.source, msg.tag⟩, msg.data ++ buffer.drop msg.data.length),
        { net with queue := rest }) := by
    simp [queueMPI, hq, takeFit_self, hlen]
  have hb2 : recvStatusBad (MPI_Status.mk msg.source msg.tag).MPI_SOURCE
      (MPI_Status.mk msg.source msg.tag).MPI_TAG ⟨msg.source, msg.tag⟩ = false := by
    simp [recvStatusBad]
  exact recvBody_good queueMPI H env hP hb hR hb2

/-- Passing, for an outcome with one more event in front. -/
lemma passes_after {σ : Type} (o : Outcome σ) (e : Event) :
    passes (o.after e) = (e.verified && passes o) := by
  simp only [passes, Outcome.after, List.all_cons]
  cases decide (o.ret = Ret.returned 0) <;> cases e.verified <;> simp

/-- The size query on the reference library, when both groups have the same size. -/
lemma queue_fetchSize (net : Net) (hs : net.remote_size = net.size) :
    ∃ ev, fetchSize queueMPI H env net = (Res.ok net.size, net, ev) ∧
      ev.verified = true ∧ ev.isRecv = false ∧ ev.isProbe = false := by
  unfold fetchSize
  split
  · exact ⟨_, rfl, rfl, rfl, rfl⟩
  · refine ⟨Event.comm_remote_size (Res.ok net.size), ?_, rfl, rfl, rfl⟩
    simp [queueMPI, hs]

/-- On the reference library, when every queued message and the buffer have exactly
`env.values_num` elements, the receive loop of the root passes exactly when the first
`n` messages of the queue are there and are good; and then it has made `n` wildcard
receives. -/
lemma queue_loop_passes (S : Int) :
    ∀ (n : Nat) (net : Net) (buffer : List Int),
      (∀ msg ∈ net.queue, (msg.data.length : Int) = env.values_num) →
      (buffer.length : Int) = env.values_num →
      (passes (recvLoop queueMPI H env S (H.tst_hash_value env) n net buffer) = true ↔
        firstGood H env S n net.queue) ∧
      (passes (recvLoop queueMPI H env S (H.tst_hash_value env) n net buffer) = true →
        wildcardReceives anyMarker anyMarker env.values_num n
          (recvLoop queueMPI H env S (H.tst_hash_value env) n net buffer).trace = true ∧
        ((recvLoop queueMPI H env S (H.tst_hash_value env) n net buffer).trace.filter
          Event.isProbe).length = n ∧
        ((recvLoop queueMPI H env S (H.tst_hash_value env) n net buffer).trace.filter
          Event.isRecv).length = n) := by
  intro n
  induction n with
  | zero =>
    intro net buffer _ _
    simp [recvLoop, passes, firstGood, wildcardReceives]
  | succ n ih =>
    intro net buffer hq hbuf
    rcases hqueue : net.queue with _ | ⟨msg, rest⟩
    · simp [recvLoop, queue_body_empty H env S _ net buffer hqueue, passes, firstGood]
    · cases hb : probeStatusBad S (H.tst_hash_value env) ⟨msg.source, msg.tag⟩ with
      | true =>
        have h1 := queue_body_bad H env S _ net buffer msg rest hqueue hb
        rcases hB : recvBody queueMPI H env S (H.tst_hash_value env) net buffer with
          ⟨o, m1, b1, evs⟩
        rw [hB] at h1
        simp only at h1
        subst h1
        have hng : ¬ goodMsg H env S msg := by
          intro hg
          have := (probeStatusBad_false S (H.tst_hash_value env) ⟨msg.source, msg.tag⟩).mpr
            ⟨hg.1, by have := hg.2.1; simp only; omega, hg.2.2.1⟩
          rw [this] at hb
          cases hb
        simp only [recvLoop, hB, passes, firstGood]
        constructor
        · constructor
          · intro h; simp at h
          · rintro ⟨_, h⟩
            exact absurd (h msg (by simp)) hng
        · intro h; simp at h
      | false =>
        have hlen : (msg.data.length : Int) = env.values_num :=
          hq msg (by rw [hqueue]; simp)
        have hdrop : buffer.drop msg.data.length = [] := by
          apply List.drop_eq_nil_of_le
          omega
        have hB := queue_body_good H env S _ net buffer msg rest hqueue hb (le_of_eq hlen)
        rw [hdrop, List.append_nil] at hB
        have ih1 := ih { net with queue := rest } msg.data
          (fun m hm => hq m (by rw [hqueue]; simp [hm])) hlen
        have hst := (probeStatusBad_false S (H.tst_hash_value env)
          ⟨msg.source, msg.tag⟩).mp hb
        simp only at hst
        have hgood : goodMsg H env S msg ↔
            tst_test_checkstandardarray H env msg.data msg.source = true := by
          simp only [goodMsg, tst_test_checkstandardarray, beq_iff_eq]
          constructor
          · intro h; exact h.2.2.2
          · intro h; exact ⟨hst.1, by omega, hst.2.2, h⟩
        have hfirst : firstGood H env S (n + 1) (msg :: rest) ↔
            goodMsg H env S msg ∧ firstGood H env S n rest := by
          simp only [firstGood, List.length_cons, List.take_succ_cons, List.mem_cons,
            forall_eq_or_imp]
          constructor
          · rintro ⟨h1, h2, h3⟩; exact ⟨h2, by omega, h3⟩
          · rintro ⟨h2, h1, h3⟩; exact ⟨by omega, h2, h3⟩
        have hpass : passes (recvLoop queueMPI H env S (H.tst_hash_value env) (n + 1)
            net buffer) =
            (tst_test_checkstandardarray H env msg.data msg.source &&
              passes (recvLoop queueMPI H env S (H.tst_hash_value env) n
                { net with queue := rest } msg.data)) := by
          simp only [recvLoop, hB, passes, List.all_append, List.all_cons, List.all_nil,
            Event.verified, Bool.true_and, Bool.and_true]
          cases decide ((recvLoop queueMPI H env S (H.tst_hash_value env) n
            { net with queue := rest } msg.data).ret = Ret.returned 0) <;>
            cases tst_test_checkstandardarray H env msg.data msg.source <;> simp
        rw [hpass, hfirst, hgood, Bool.and_eq_true]
        constructor
        · rw [ih1.1]
        · rintro ⟨_, h2⟩
          obtain ⟨h3, h4, h5⟩ := ih1.2 h2
          simp only [recvLoop, hB]
          refine ⟨?_, ?_, ?_⟩
          · simp [wildcardReceives, h3]
          · simp [List.filter, Event.isProbe, h4]
          · simp [List.filter, Event.isRecv, h5]

/-- Three good messages at the head of the queue, in the two ways of saying it. -/
lemma threeGood_iff (queue : List Msg) :
    threeGood H env queue ↔ firstGood H env 4 3 queue := by
  constructor
  · rintro ⟨m1, m2, m3, rest, rfl, h1, h2, h3⟩
    refine ⟨by simp, ?_⟩
    intro msg hmsg
    simp only [List.take_succ_cons, List.take_zero, List.mem_cons, List.mem_nil_iff,
      or_false] at hmsg
    rcases hmsg with rfl | rfl | rfl <;> assumption
  · rintro ⟨hlen, hall⟩
    match queue, hlen, hall with
    | m1 :: m2 :: m3 :: rest, _, hall =>
      exact ⟨m1, m2, m3, rest, rfl, hall m1 (by simp), hall m2 (by simp),
        hall m3 (by simp)⟩

/-- The root of a group of four on the reference library: `init` then `run` is the
two queries followed by three passes of the receive loop on the pattern of rank 0. -/
lemma queue_root_run (queue : List Msg) :
    ∃ ev, ev.verified = true ∧ ev.isRecv = false ∧ ev.isProbe = false ∧
      initThenRun queueMPI H env (net4 0 queue) =
        ((recvLoop queueMPI H env 4 (H.tst_hash_value env) 3 (net4 0 queue)
          (H.tst_type_setstandardarray env.type env.values_num 0)).after
            (Event.comm_rank (Res.ok 0))).after ev := by
  obtain ⟨ev, hev, h1, h2, h3⟩ := queue_fetchSize H env (net4 0 queue) rfl
  refine ⟨ev, h1, h2, h3, ?_⟩
  have hinit : tst_p2p_many_to_one_probe_anysource_init queueMPI H env (net4 0 queue) =
      { ret := Ret.returned 0, mpi := net4 0 queue,
        buffer := H.tst_type_setstandardarray env.type env.values_num 0,
        trace := [Event.comm_rank (Res.ok 0)] } := rfl
  have hrank : queueMPI.MPI_Comm_rank (net4 0 queue) = (Res.ok 0, net4 0 queue) := rfl
  unfold initThenRun
  rw [hinit]
  simp only
  rw [run_ok queueMPI H env _ _ _ _ ev hev,
    runWithSize_ok queueMPI H env _ 0 _ _ _ hrank, runBranch_root]
  rfl

/-- What a process of rank `1`, `2` or `3` sends to the root on the reference
library: one message with its rank as source, the tag of the environment, and the
first `env.values_num` elements of the pattern seeded by its rank. -/
lemma sentBy_eq (rank : Int) (hr : rank ≠ 0) :
    sentBy H env rank =
      [⟨rank, H.tst_hash_value env,
        (H.tst_type_setstandardarray env.type env.values_num rank).take
          env.values_num.toNat⟩] := by
  obtain ⟨ev, hev, -⟩ := queue_fetchSize H env (net4 rank []) rfl
  have hinit : tst_p2p_many_to_one_probe_anysource_init queueMPI H env (net4 rank []) =
      { ret := Ret.returned 0, mpi := net4 rank [],
        buffer := H.tst_type_setstandardarray env.type env.values_num rank,
        trace := [Event.comm_rank (Res.ok rank)] } := rfl
  have hrank : queueMPI.MPI_Comm_rank (net4 rank []) = (Res.ok rank, net4 rank []) := rfl
  unfold sentBy initThenRun
  rw [hinit]
  simp only
  rw [run_ok queueMPI H env _ _ _ _ ev hev,
    runWithSize_ok queueMPI H env _ rank _ _ _ hrank]
  simp [Outcome.after, runBranch, hr, queueMPI, net4]

end queue

/-- What the ranks of a list of ranks from `1 .. 3` send to the root, one after the
other: one message each, with the rank as source, the tag of the test and the
standard pattern seeded by the rank. -/
lemma sentBy_flatMap (H : Harness) (env : tst_env) (hn : env.values_num = 10)
    (hpat : ∀ seed, (H.tst_type_setstandardarray env.type env.values_num seed).length = 10) :
    ∀ l : List Int, (∀ r ∈ l, r = 1 ∨ r = 2 ∨ r = 3) →
      l.flatMap (sentBy H env) = l.map (fun r => (⟨r, H.tst_hash_value env,
        H.tst_type_setstandardarray env.type env.values_num r⟩ : Msg)) := by
  intro l
  induction l with
  | nil => intro _; rfl
  | cons r l ih =>
    intro hl
    have hr0 : r ≠ 0 := by
      rcases hl r (by simp) with h | h | h <;> omega
    have htake : (H.tst_type_setstandardarray env.type env.values_num r).take
        env.values_num.toNat = H.tst_type_setstandardarray env.type env.values_num r := by
      apply List.take_of_length_le
      rw [hpat r, hn]
      decide
    simp only [List.flatMap_cons, List.map_cons]
    rw [sentBy_eq H env r hr0, htake, ih (fun x hx => hl x (by simp [hx]))]
    rfl

/-- Group of four, ten elements per message, reference library.  The root, running
`init` and then `run`, passes exactly when three messages are received, each from a
source in `1 .. 3`, with the tag `tst_hash_value (env)` and the standard pattern seeded
by its source; a passing run has made three wildcard probes and three receives; and it
passes for every arrival order of what ranks 1, 2 and 3 send. -/
lemma pass_iff_three_good (H : Harness) (env : tst_env)
    (hn : env.values_num = 10)
    (hpat : ∀ seed, (H.tst_type_setstandardarray env.type env.values_num seed).length = 10) :
    (∀ queue : List Msg, (∀ msg ∈ queue, msg.data.length = 10) →
      (passes (initThenRun queueMPI H env (net4 0 queue)) = true ↔
        threeGood H env queue) ∧
      (passes (initThenRun queueMPI H env (net4 0 queue)) = true →
        ((initThenRun queueMPI H env (net4 0 queue)).trace.filter Event.isProbe).length
          = 3 ∧
        ((initThenRun queueMPI H env (net4 0 queue)).trace.filter Event.isRecv).length
          = 3)) ∧
    (∀ order : List Int, order.Perm [1, 2, 3] →
      passes (initThenRun queueMPI H env (net4 0 (order.flatMap (sentBy H env)))) = true) := by
  have key : ∀ queue : List Msg, (∀ msg ∈ queue, msg.data.length = 10) →
      (passes (initThenRun queueMPI H env (net4 0 queue)) = true ↔
        threeGood H env queue) ∧
      (passes (initThenRun queueMPI H env (net4 0 queue)) = true →
        ((initThenRun queueMPI H env (net4 0 queue)).trace.filter Event.isProbe).length
          = 3 ∧
        ((initThenRun queueMPI H env (net4 0 queue)).trace.filter Event.isRecv).length
          = 3) := by
    intro queue hq
    obtain ⟨ev, hv, hr, hp, hrun⟩ := queue_root_run H env queue
    have hloop := queue_loop_passes H env 4 3 (net4 0 queue)
      (H.tst_type_setstandardarray env.type env.values_num 0)
      (fun msg hmsg => by have := hq msg hmsg; omega)
      (by have := hpat 0; omega)
    have hpass : passes (initThenRun queueMPI H env (net4 0 queue)) =
        passes (recvLoop queueMPI H env 4 (H.tst_hash_value env) 3 (net4 0 queue)
          (H.tst_type_setstandardarray env.type env.values_num 0)) := by
      rw [hrun, passes_after, passes_after, hv]
      simp [Event.verified]
    rw [hpass, threeGood_iff]
    refine ⟨hloop.1, fun h => ?_⟩
    have h4 := (hloop.2 h).2
    rw [hrun]
    have e1 : Event.isProbe (Event.comm_rank (Res.ok 0)) = false := rfl
    have e2 : Event.isRecv (Event.comm_rank (Res.ok 0)) = false := rfl
    simpa [Outcome.after, List.filter_cons, hr, hp, e1, e2] using h4
  refine ⟨key, ?_⟩
  intro order hperm
  have hmem : ∀ r ∈ order, r = 1 ∨ r = 2 ∨ r = 3 := by
    intro r hr
    have := hperm.subset hr
    simpa using this
  have hmap := sentBy_flatMap H env hn hpat
  rw [hmap order hmem]
  refine ((key _ ?_).1).mpr ?_
  · intro msg hmsg
    simp only [List.mem_map] at hmsg
    obtain ⟨r, _, rfl⟩ := hmsg
    exact hpat r
  · rw [threeGood_iff]
    refine ⟨by simp [hperm.length_eq], ?_⟩
    intro msg hmsg
    have hmsg2 := List.mem_of_mem_take hmsg
    simp only [List.mem_map] at hmsg2
    obtain ⟨r, hr, rfl⟩ := hmsg2
    have := hmem r hr
    refine ⟨?_, ?_, rfl, rfl⟩ <;> simp only <;> omega

/-- C3: group of four, element count ten, reference library, each source delivering
at most one message of ten elements.  The root, running `init` and then `run`, passes if
and only if three messages are received, each from a distinct source in `1 .. 3`, each
with the tag `tst_hash_value (env)` and each with the payload that is the standard
pattern seeded by its source; a passing run has made three wildcard probes and three
receives.  For every arrival order of what ranks 1, 2 and 3 send, the run passes and
the three messages are as described. -/
theorem three_messages_pass_iff_distinct_good (H : Harness) (env : tst_env)
    (hn : env.values_num = 10)
    (hpat : ∀ seed, (H.tst_type_setstandardarray env.type env.values_num seed).length = 10) :
    (∀ queue : List Msg, (∀ msg ∈ queue, msg.data.length = 10) →
      (queue.map Msg.source).Nodup →
      (passes (initThenRun queueMPI H env (net4 0 queue)) = true ↔
        threeDistinctGood H env queue) ∧
      (passes (initThenRun queueMPI H env (net4 0 queue)) = true →
        ((initThenRun queueMPI H env (net4 0 queue)).trace.filter Event.isProbe).length
          = 3 ∧
        ((initThenRun queueMPI H env (net4 0 queue)).trace.filter Event.isRecv).length
          = 3)) ∧
    (∀ order : List Int, order.Perm [1, 2, 3] →
      passes (initThenRun queueMPI H env (net4 0 (order.flatMap (sentBy H env)))) = true ∧
      threeDistinctGood H env (order.flatMap (sentBy H env))) := by
  have base := pass_iff_three_good H env hn hpat
  have hdist : ∀ queue : List Msg, (queue.map Msg.source).Nodup →
      (threeGood H env queue ↔ threeDistinctGood H env queue) := by
    intro queue hnd
    constructor
    · rintro ⟨m1, m2, m3, rest, rfl, h1, h2, h3⟩
      simp only [List.map_cons, List.nodup_cons, List.mem_cons, not_or] at hnd
      exact ⟨m1, m2, m3, rest, rfl, h1, h2, h3, hnd.1.1, hnd.1.2.1, hnd.2.1.1⟩
    · rintro ⟨m1, m2, m3, rest, rfl, h1, h2, h3, -, -, -⟩
      exact ⟨m1, m2, m3, rest, rfl, h1, h2, h3⟩
  have key : ∀ queue : List Msg, (∀ msg ∈ queue, msg.data.length = 10) →
      (queue.map Msg.source).Nodup →
      (passes (initThenRun queueMPI H env (net4 0 queue)) = true ↔
        threeDistinctGood H env queue) ∧
      (passes (initThenRun queueMPI H env (net4 0 queue)) = true →
        ((initThenRun queueMPI H env (net4 0 queue)).trace.filter Event.isProbe).length
          = 3 ∧
        ((initThenRun queueMPI H env (net4 0 queue)).trace.filter Event.isRecv).length
          = 3) := by
    intro queue hq hnd
    exact ⟨((base.1 queue hq).1).trans (hdist queue hnd), (base.1 queue hq).2⟩
  refine ⟨key, ?_⟩
  intro order hperm
  have hpass := base.2 order hperm
  refine ⟨hpass, ?_⟩
  have hmem : ∀ r ∈ order, r = 1 ∨ r = 2 ∨ r = 3 := by
    intro r hr
    have := hperm.subset hr
    simpa using this
  have hmap := sentBy_flatMap H env hn hpat order hmem
  refine ((key _ ?_ ?_).1).mp hpass
  · intro msg hmsg
    rw [hmap, List.mem_map] at hmsg
    obtain ⟨r, _, rfl⟩ := hmsg
    exact hpat r
  · rw [hmap, List.map_map]
    have : (Msg.source ∘ fun r => (⟨r, H.tst_hash_value env,
        H.tst_type_setstandardarray env.type env.values_num r⟩ : Msg)) = id := rfl
    rw [this, List.map_id]
    exact (hperm.nodup_iff).mpr (by decide)

/-- Witness for C3 in the sample scenario, with arrival order 3, 1, 2. -/
theorem three_messages_pass_iff_distinct_good_witness :
    sampleEnv.values_num = 10 ∧
    (passes (initThenRun queueMPI sampleHarness sampleEnv (net4 0 (arrivals [3, 1, 2])))
        = true ↔
      threeDistinctGood sampleHarness sampleEnv (arrivals [3, 1, 2])) ∧
    passes (initThenRun queueMPI sampleHarness sampleEnv (net4 0 (arrivals [3, 1, 2])))
      = true :=
  ⟨rfl,
    ((three_messages_pass_iff_distinct_good sampleHarness sampleEnv rfl
      (by
        intro seed
        simp only [sampleHarness, List.length_map, List.length_range]
        rfl)).1 (arrivals [3, 1, 2]) (by decide) (by decide)).1,
    ((three_messages_pass_iff_distinct_good sampleHarness sampleEnv rfl
      (by
        intro seed
        simp only [sampleHarness, List.length_map, List.length_range]
        rfl)).2 [3, 1, 2] (by decide)).1⟩

/-- Witness for C1: the root of a group of four with three good messages waiting. -/
theorem root_issues_all_wildcard_receives_witness :
    (∀ e ∈ (tst_p2p_many_to_one_probe_anysource_run queueMPI sampleHarness sampleEnv
        (net4 0 (arrivals [3, 1, 2])) []).trace, e.succeeded = true) ∧
    (tst_p2p_many_to_one_probe_anysource_run queueMPI sampleHarness sampleEnv
        (net4 0 (arrivals [3, 1, 2])) []).ret = Ret.returned 0 :=
  ⟨by decide,
    (root_issues_all_wildcard_receives queueMPI sampleHarness sampleEnv
      (net4 0 (arrivals [3, 1, 2])) (net4 0 (arrivals [3, 1, 2]))
      (net4 0 (arrivals [3, 1, 2])) [] 4 (Event.comm_size (Res.ok 4))
      (by decide) (by decide) (by decide) (by decide)).1⟩

/-- Witness for C2: a message from source 3 with tag 7 instead of 1135. -/
theorem probe_status_mismatch_reported_witness :
    (tst_p2p_many_to_one_probe_anysource_run queueMPI sampleHarness sampleEnv
      (net4 0 [⟨3, 7, []⟩]) []).trace =
        [Event.comm_size (Res.ok 4), Event.comm_rank (Res.ok 0)] ++
          Event.probe (-1) (-1) (Res.ok ⟨3, 7⟩) ::
            [Event.error "Error in status after MPI_Probe"] ∧
    (tst_p2p_many_to_one_probe_anysource_run queueMPI sampleHarness sampleEnv
      (net4 0 [⟨3, 7, []⟩]) []).ret = Ret.aborted :=
  ⟨by decide,
    ((probe_status_mismatch_reported queueMPI sampleHarness sampleEnv
      (net4 0 [⟨3, 7, []⟩]) (net4 0 [⟨3, 7, []⟩]) [] 4 (Event.comm_size (Res.ok 4))
      [Event.comm_size (Res.ok 4), Event.comm_rank (Res.ok 0)]
      [Event.error "Error in status after MPI_Probe"] (-1) (-1) ⟨3, 7⟩
      (by decide) (by decide)).2.1 (Or.inr (Or.inr (by decide)))).2⟩

/-- Witness for C7: local and remote group of different sizes.  On the intra-group
communicator (local size 3, remote size 5) and on the inter-group communicator (local
size 5, remote size 3) the root makes exactly two probes; on the inter-group
communicator a message from source 3 is reported, although 3 is below the local
size. -/
theorem size_accessor_by_class_witness :
    ((tst_p2p_many_to_one_probe_anysource_run queueMPI sampleHarness sampleEnv
      (netSizes 3 5 (arrivals [2, 1])) []).trace.filter Event.isProbe).length = 2 ∧
    ((tst_p2p_many_to_one_probe_anysource_run queueMPI sampleHarness sampleEnvInter
      (netSizes 5 3 (arrivalsInter [2, 1])) []).trace.filter Event.isProbe).length = 2 ∧
    (tst_p2p_many_to_one_probe_anysource_run queueMPI sampleHarness sampleEnvInter
      (netSizes 5 3 (arrivalsInter [3])) []).trace =
        [Event.comm_remote_size (Res.ok 3), Event.comm_rank (Res.ok 0)] ++
          Event.probe (-1) (-1) (Res.ok ⟨3, 1735⟩) ::
            [Event.error "Error in status after MPI_Probe"] ∧
    [Event.error "Error in status after MPI_Probe"].head? =
      some (Event.error "Error in status after MPI_Probe") :=
  ⟨(((((size_accessor_by_class queueMPI sampleHarness sampleEnv
        (netSizes 3 5 (arrivals [2, 1])) []).1 (by decide)).2 3
          (netSizes 3 5 (arrivals [2, 1])) rfl).2.1
            (netSizes 3 5 (arrivals [2, 1])) rfl (by decide)).2.1),
   (((((size_accessor_by_class queueMPI sampleHarness sampleEnvInter
        (netSizes 5 3 (arrivalsInter [2, 1])) []).2 (by decide)).2 3
          (netSizes 5 3 (arrivalsInter [2, 1])) rfl).2.1
            (netSizes 5 3 (arrivalsInter [2, 1])) rfl (by decide)).2.1),
   by decide,
   ((((size_accessor_by_class queueMPI sampleHarness sampleEnvInter
        (netSizes 5 3 (arrivalsInter [3])) []).2 (by decide)).2 3
          (netSizes 5 3 (arrivalsInter [3])) rfl).2.2.1
            [Event.comm_remote_size (Res.ok 3), Event.comm_rank (Res.ok 0)]
            [Event.error "Error in status after MPI_Probe"] (-1) (-1) ⟨3, 1735⟩
            (by decide)).mpr (Or.inr (Or.inl (by decide)))⟩

/-- Witness for C8: rank 2 of a group of four. -/
theorem sender_tag_is_root_tag_witness :
    (tst_p2p_many_to_one_probe_anysource_run queueMPI sampleHarness sampleEnv
        (net4 2 []) [20, 21]).trace =
      [Event.comm_size (Res.ok 4), Event.comm_rank (Res.ok 2),
        Event.send [20, 21] 10 0 1135 (Res.ok ())] :=
  (sender_tag_is_root_tag queueMPI sampleHarness sampleEnv (net4 2 []) (net4 2 [])
    (net4 2 []) [20, 21] 4 2 (Event.comm_size (Res.ok 4)) (by decide) (by decide)
    (by decide)).1

end P2P

/-! ## Threaded communicator duplication: properties -/

namespace Threaded

/-- Every move of `tst_threaded_comm_dup_run` is one of the cases of `Step`, by a
thread that exists. -/
lemma step_cases (cfg : Cfg) (k : Nat) (ok : Bool) (s s1 : State)
    (h : tst_threaded_comm_dup_run cfg k ok s = some s1) :
    k < cfg.num_threads ∧ Step cfg k s s1 := by
  unfold tst_threaded_comm_dup_run at h
  by_cases hk : k < cfg.num_threads ∧ s.failed k = false
  · rw [if_pos hk] at h
    refine ⟨hk.1, ?_⟩
    cases hpc : s.pc k with
    | queries =>
      rw [hpc] at h
      cases ok
      · simp at h; exact Step.fail [] (Or.inl rfl) h.symm
      · simp at h; exact Step.queries hpc h.symm
    | wait =>
      rw [hpc] at h
      by_cases h0 : k = 0
      · simp [h0] at h
        exact Step.wait0 h0 hpc (by rw [h0]; exact h.symm)
      · simp only [ne_eq, h0, not_false_eq_true, if_true, tst_thread_signal_wait] at h
        by_cases hs : s.slot k = true
        · simp [hs] at h
          exact Step.wait h0 hpc hs h.symm
        · simp [hs] at h
    | alloc =>
      rw [hpc] at h
      cases ok
      · simp at h; exact Step.fail [] (Or.inl rfl) h.symm
      · simp at h; exact Step.alloc hpc h.symm
    | dup i =>
      rw [hpc] at h
      cases ok
      · simp at h; exact Step.fail [] (Or.inl rfl) h.symm
      · simp at h; exact Step.dup i hpc h.symm
    | signal =>
      rw [hpc] at h
      simp at h; exact Step.signal hpc h.symm
    | bcast i =>
      rw [hpc] at h
      cases ok
      · simp at h; exact Step.fail _ (Or.inr ⟨_, rfl⟩) h.symm
      · simp at h; exact Step.bcast i hpc h.symm
    | free i =>
      rw [hpc] at h
      cases ok
      · simp at h; exact Step.fail [] (Or.inl rfl) h.symm
      · simp at h; exact Step.free i hpc h.symm
    | done =>
      rw [hpc] at h
      simp at h
  · rw [if_neg hk] at h
    cases h

/-- A property that holds initially and is kept by every move holds in every state
the threads reach. -/
lemma exec_induction (cfg : Cfg) (P : State → Prop)
    (hstep : ∀ k s s1, k < cfg.num_threads → Step cfg k s s1 → P s → P s1) :
    ∀ (sched : List (Nat × Bool)) (s : State), P s → P (exec cfg sched s) := by
  intro sched
  induction sched with
  | nil => intro s hs; exact hs
  | cons e rest ih =>
    intro s hs
    obtain ⟨k, ok⟩ := e
    simp only [exec]
    cases hr : tst_threaded_comm_dup_run cfg k ok s with
    | none => exact ih s hs
    | some s1 =>
      obtain ⟨hk, hst⟩ := step_cases cfg k ok s s1 hr
      exact ih s1 (hstep k s s1 hk hst hs)

/-! ### The signal ring -/

lemma enters_append (l1 l2 : List (Nat × Call)) :
    enters (l1 ++ l2) = enters l1 ++ enters l2 := by
  simp [enters, List.filterMap_append]

lemma sends_append (l1 l2 : List (Nat × Call)) :
    sends (l1 ++ l2) = sends l1 ++ sends l2 := by
  simp [sends, List.filterMap_append]

lemma waits_append (l1 l2 : List (Nat × Call)) :
    waits (l1 ++ l2) = waits l1 ++ waits l2 := by
  simp [waits, List.filterMap_append]

lemma dupLoop_flags (cfg : Cfg) (i : Nat) :
    (dupLoop cfg i).entered = true ∧ (dupLoop cfg i).signalled = false := by
  unfold dupLoop
  split <;> exact ⟨rfl, rfl⟩

lemma freeLoop_flags (cfg : Cfg) (i : Nat) :
    (freeLoop cfg i).entered = true ∧ (freeLoop cfg i).signalled = true := by
  unfold freeLoop
  split <;> exact ⟨rfl, rfl⟩

lemma bcastLoop_flags (cfg : Cfg) (i : Nat) :
    (bcastLoop cfg i).entered = true ∧ (bcastLoop cfg i).signalled = true := by
  unfold bcastLoop
  split
  · exact ⟨rfl, rfl⟩
  · exact freeLoop_flags cfg 0

/-- Moving one thread between two places with the same flag leaves the flag of every
thread as it was. -/
lemma update_flag (f : PC → Bool) (pc : Nat → PC) (k : Nat) (p : PC)
    (h : f p = f (pc k)) : ∀ j, f (Function.update pc k p j) = f (pc j) := by
  intro j
  by_cases hj : j = k
  · subst hj; simp [h]
  · simp [Function.update_noteq hj]

/-- The ring invariant holds in the initial state. -/
lemma ringInv_initial (cfg : Cfg) : RingInv cfg (State.initial cfg) where
  count_le := by simp [State.entCount, State.initial, enters]
  enters_eq := by simp [State.entCount, State.initial, enters]
  entered_iff := by intro j; simp [State.entCount, State.initial, enters, PC.entered]
  signalled_below := by intro j h; simp [State.entCount, State.initial, enters] at h
  signalled_entered := by intro j h; simp [State.initial, PC.signalled] at h
  slots := by
    intro j
    simp [State.entCount, State.initial, enters, tst_thread_signal_init]
  sends_eq := by simp [State.sigCount, State.entCount, State.initial, enters, sends]
  waits_eq := by simp [State.entCount, State.initial, enters, waits]

/-- A move that changes no slot, no flag of a place and none of the ring events keeps
the ring invariant. -/
lemma ringInv_silent (cfg : Cfg) (s s1 : State) (h : RingInv cfg s)
    (hslot : s1.slot = s.slot) (he : enters s1.log = enters s.log)
    (hs : sends s1.log = sends s.log) (hw : waits s1.log = waits s.log)
    (hent : ∀ j, (s1.pc j).entered = (s.pc j).entered)
    (hsig : ∀ j, (s1.pc j).signalled = (s.pc j).signalled) : RingInv cfg s1 := by
  have hm : s1.entCount = s.entCount := by simp [State.entCount, he]
  have hc : s1.sigCount = s.sigCount := by simp [State.sigCount, hm, hsig]
  exact {
    count_le := by rw [hm]; exact h.count_le
    enters_eq := by rw [hm, he]; exact h.enters_eq
    entered_iff := by intro j; rw [hm, hent]; exact h.entered_iff j
    signalled_below := by intro j hj; rw [hm] at hj; rw [hsig]; exact h.signalled_below j hj
    signalled_entered := by intro j hj; rw [hsig] at hj; rw [hent]; exact h.signalled_entered j hj
    slots := by intro j; rw [hm, hsig, hslot]; exact h.slots j
    sends_eq := by rw [hc, hs]; exact h.sends_eq
    waits_eq := by rw [hm, hw]; exact h.waits_eq }

/-- Thread 0 passes line 74 without waiting. -/
lemma ringInv_wait0 (cfg : Cfg) (s : State) (h : RingInv cfg s)
    (hN : 0 < cfg.num_threads) (hpc : s.pc 0 = PC.wait) :
    RingInv cfg (s.advance 0 PC.alloc [Call.enter]) := by
  have hm : s.entCount = 0 := by
    have := (h.entered_iff 0).mp
    rw [hpc] at this
    by_contra hne
    have h2 : (PC.wait).entered = true := (h.entered_iff 0).mpr (by omega) ▸ (by rw [hpc])
    cases h2
  have he : enters (s.advance 0 PC.alloc [Call.enter]).log = [0] := by
    show enters (s.log ++ [(0, Call.enter)]) = [0]
    rw [enters_append, h.enters_eq, hm]
    rfl
  have hm1 : (s.advance 0 PC.alloc [Call.enter]).entCount = 1 := by
    simp [State.entCount, he]
  have hpc1 : (s.advance 0 PC.alloc [Call.enter]).pc 0 = PC.alloc := by
    simp [State.advance]
  have hpcj : ∀ j, j ≠ 0 → (s.advance 0 PC.alloc [Call.enter]).pc j = s.pc j := by
    intro j hj
    simp [State.advance, Function.update_noteq hj]
  exact {
    count_le := by rw [hm1]; exact hN
    enters_eq := by rw [hm1, he]; rfl
    entered_iff := by
      intro j
      rw [hm1]
      by_cases hj : j = 0
      · subst hj; rw [hpc1]; simp [PC.entered]
      · rw [hpcj j hj, h.entered_iff j, hm]; omega
    signalled_below := by intro j hj; rw [hm1] at hj; omega
    signalled_entered := by
      intro j hj
      by_cases hj0 : j = 0
      · subst hj0; rw [hpc1] at hj; cases hj
      · rw [hpcj j hj0] at hj ⊢; exact h.signalled_entered j hj
    slots := by
      intro j
      rw [hm1]
      have hold := h.slots j
      rw [hm] at hold
      simp only [State.advance, Nat.sub_self, Function.update_same, PC.signalled] at hold ⊢
      constructor
      · intro hs; exact absurd (hold.mp hs).1 (by omega)
      · rintro ⟨_, h2, _⟩; cases h2
    sends_eq := by
      have hc : (s.advance 0 PC.alloc [Call.enter]).sigCount = 0 := by
        simp [State.sigCount, hm1, hpc1, PC.signalled]
      have hc0 : s.sigCount = 0 := by simp [State.sigCount, hm]
      rw [hc]
      show sends (s.log ++ [(0, Call.enter)]) = _
      rw [sends_append, h.sends_eq, hc0]
      rfl
    waits_eq := by
      rw [hm1]
      show waits (s.log ++ [(0, Call.enter)]) = _
      rw [waits_append, h.waits_eq, hm]
      rfl }

/-- A thread other than thread 0 consumes its signal and passes line 74. -/
lemma ringInv_wait (cfg : Cfg) (s : State) (k : Nat) (h : RingInv cfg s)
    (hN : k < cfg.num_threads) (hk : k ≠ 0) (hpc : s.pc k = PC.wait)
    (hslot : s.slot k = true) :
    RingInv cfg ({ s with slot := Function.update s.slot k false }.advance k PC.alloc
      [Call.signal_wait k, Call.enter]) := by
  obtain ⟨hpos, hsig, hkm⟩ := (h.slots k).mp hslot
  have hle := h.count_le
  have hnot : ¬ k < s.entCount := by
    intro hlt
    have := (h.entered_iff k).mpr hlt
    rw [hpc] at this
    cases this
  have hlt : s.entCount < cfg.num_threads := by
    rcases Nat.lt_or_ge s.entCount cfg.num_threads with h1 | h1
    · exact h1
    · have : s.entCount = cfg.num_threads := by omega
      rw [this, Nat.mod_self] at hkm
      exact absurd hkm hk
  have hkeq : k = s.entCount := by rw [hkm, Nat.mod_eq_of_lt hlt]
  have hlog : ({ s with slot := Function.update s.slot k false }.advance k PC.alloc
      [Call.signal_wait k, Call.enter]).log =
      s.log ++ [(k, Call.signal_wait k), (k, Call.enter)] := rfl
  have hpcs : ({ s with slot := Function.update s.slot k false }.advance k PC.alloc
      [Call.signal_wait k, Call.enter]).pc = Function.update s.pc k PC.alloc := rfl
  have hslots : ({ s with slot := Function.update s.slot k false }.advance k PC.alloc
      [Call.signal_wait k, Call.enter]).slot = Function.update s.slot k false := rfl
  have he : enters ({ s with slot := Function.update s.slot k false }.advance k PC.alloc
      [Call.signal_wait k, Call.enter]).log = List.range (s.entCount + 1) := by
    rw [hlog, enters_append, h.enters_eq, List.range_succ, hkeq]
    rfl
  have hm1 : ({ s with slot := Function.update s.slot k false }.advance k PC.alloc
      [Call.signal_wait k, Call.enter]).entCount = s.entCount + 1 := by
    simp [State.entCount, he]
  exact {
    count_le := by rw [hm1]; omega
    enters_eq := by rw [hm1, he]
    entered_iff := by
      intro j
      rw [hm1, hpcs]
      by_cases hj : j = k
      · subst hj; simp [PC.entered]; omega
      · rw [Function.update_noteq hj, h.entered_iff j]; omega
    signalled_below := by
      intro j hj
      rw [hm1] at hj
      rw [hpcs]
      have hjk : j ≠ k := by omega
      rw [Function.update_noteq hjk]
      by_cases hj2 : j + 1 < s.entCount
      · exact h.signalled_below j hj2
      · have : j = s.entCount - 1 := by omega
        rw [this]; exact hsig
    signalled_entered := by
      intro j hj
      rw [hpcs] at hj ⊢
      by_cases hjk : j = k
      · subst hjk; simp [PC.signalled] at hj
      · rw [Function.update_noteq hjk] at hj ⊢; exact h.signalled_entered j hj
    slots := by
      intro j
      rw [hm1, hpcs, hslots]
      have hidx : s.entCount + 1 - 1 = k := by omega
      rw [hidx]
      simp only [Function.update_same, PC.signalled]
      constructor
      · intro hs
        by_cases hjk : j = k
        · subst hjk; simp at hs
        · rw [Function.update_noteq hjk] at hs
          have := ((h.slots j).mp hs).2.2
          rw [← hkm] at this
          exact absurd this hjk
      · rintro ⟨_, h2, _⟩; cases h2
    sends_eq := by
      have hc : ({ s with slot := Function.update s.slot k false }.advance k PC.alloc
          [Call.signal_wait k, Call.enter]).sigCount = s.entCount := by
        have hidx : s.entCount + 1 - 1 = k := by omega
        simp [State.sigCount, hm1, hpcs, hidx, PC.signalled]
        omega
      have hc0 : s.sigCount = s.entCount := by
        simp [State.sigCount, hpos, hsig]
      rw [hc, hlog, sends_append, h.sends_eq, hc0]
      simp [sends]
    waits_eq := by
      rw [hm1, hlog, waits_append, h.waits_eq]
      have hidx : s.entCount + 1 - 1 = (s.entCount - 1) + 1 := by omega
      rw [hidx, List.range_succ, List.map_append]
      have : s.entCount - 1 + 1 = k := by omega
      simp [waits, this] }

/-- A thread executes the signal of line 83. -/
lemma ringInv_signal (cfg : Cfg) (s : State) (k : Nat) (h : RingInv cfg s)
    (hpc : s.pc k = PC.signal) :
    RingInv cfg ({ s with
      slot := (tst_thread_signal_send ((k + 1) % cfg.num_threads) s.slot) }.advance k
        (bcastLoop cfg 0) [Call.signal_send ((k + 1) % cfg.num_threads)]) := by
  have hlt : k < s.entCount := (h.entered_iff k).mp (by rw [hpc]; rfl)
  have hnot : ¬ k + 1 < s.entCount := by
    intro hlt2
    have := h.signalled_below k hlt2
    rw [hpc] at this
    cases this
  have hkeq : s.entCount - 1 = k := by omega
  have hlog : ({ s with
      slot := (tst_thread_signal_send ((k + 1) % cfg.num_threads) s.slot) }.advance k
        (bcastLoop cfg 0) [Call.signal_send ((k + 1) % cfg.num_threads)]).log =
      s.log ++ [(k, Call.signal_send ((k + 1) % cfg.num_threads))] := rfl
  have hpcs : ({ s with
      slot := (tst_thread_signal_send ((k + 1) % cfg.num_threads) s.slot) }.advance k
        (bcastLoop cfg 0) [Call.signal_send ((k + 1) % cfg.num_threads)]).pc =
      Function.update s.pc k (bcastLoop cfg 0) := rfl
  have hslots : ({ s with
      slot := (tst_thread_signal_send ((k + 1) % cfg.num_threads) s.slot) }.advance k
        (bcastLoop cfg 0) [Call.signal_send ((k + 1) % cfg.num_threads)]).slot =
      Function.update s.slot ((k + 1) % cfg.num_threads) true := rfl
  have he : enters ({ s with
      slot := (tst_thread_signal_send ((k + 1) % cfg.num_threads) s.slot) }.advance k
        (bcastLoop cfg 0) [Call.signal_send ((k + 1) % cfg.num_threads)]).log =
      enters s.log := by
    rw [hlog, enters_append]
    simp [enters]
  have hm1 : ({ s with
      slot := (tst_thread_signal_send ((k + 1) % cfg.num_threads) s.slot) }.advance k
        (bcastLoop cfg 0) [Call.signal_send ((k + 1) % cfg.num_threads)]).entCount =
      s.entCount := by
    simp [State.entCount, he]
  have hold : ∀ j, s.slot j = false := by
    intro j
    by_contra hne
    have hs : s.slot j = true := by simpa using hne
    have := ((h.slots j).mp hs).2.1
    rw [hkeq, hpc] at this
    cases this
  exact {
    count_le := by rw [hm1]; exact h.count_le
    enters_eq := by rw [hm1, he]; exact h.enters_eq
    entered_iff := by
      intro j
      rw [hm1, hpcs, update_flag PC.entered s.pc k _
        (by rw [hpc, (bcastLoop_flags cfg 0).1]; rfl)]
      exact h.entered_iff j
    signalled_below := by
      intro j hj
      rw [hm1] at hj
      rw [hpcs]
      have hjk : j ≠ k := by omega
      rw [Function.update_noteq hjk]
      exact h.signalled_below j hj
    signalled_entered := by
      intro j hj
      rw [hpcs] at hj ⊢
      by_cases hjk : j = k
      · subst hjk; simp [(bcastLoop_flags cfg 0).1]
      · rw [Function.update_noteq hjk] at hj ⊢; exact h.signalled_entered j hj
    slots := by
      intro j
      rw [hm1, hpcs, hslots, hkeq]
      simp only [Function.update_same, (bcastLoop_flags cfg 0).2, true_and]
      have hidx : s.entCount = k + 1 := by omega
      rw [hidx]
      by_cases hj : j = (k + 1) % cfg.num_threads
      · subst hj; simp
      · rw [Function.update_noteq hj, hold j]
        simp [hj]
    sends_eq := by
      have hc : ({ s with
          slot := (tst_thread_signal_send ((k + 1) % cfg.num_threads) s.slot) }.advance k
            (bcastLoop cfg 0) [Call.signal_send ((k + 1) % cfg.num_threads)]).sigCount =
          k + 1 := by
        have h0 : 0 < s.entCount := by omega
        have hidx : s.entCount = k + 1 := by omega
        simp [State.sigCount, hm1, hpcs, hkeq, (bcastLoop_flags cfg 0).2, h0, hidx]
      have hc0 : s.sigCount = k := by
        simp [State.sigCount, hkeq, hpc, PC.signalled]
      rw [hc, hlog, sends_append, h.sends_eq, hc0, List.range_succ, List.map_append]
      simp [sends]
    waits_eq := by
      rw [hm1, hlog, waits_append, h.waits_eq]
      simp [waits] }

/-- The events of a move that are no ring events leave the three ring lists alone. -/
lemma ring_lists_advance (s : State) (k : Nat) (p : PC) (evs : List Call)
    (h1 : enters (evs.map (fun c => (k, c))) = [])
    (h2 : sends (evs.map (fun c => (k, c))) = [])
    (h3 : waits (evs.map (fun c => (k, c))) = []) :
    enters (s.advance k p evs).log = enters s.log ∧
    sends (s.advance k p evs).log = sends s.log ∧
    waits (s.advance k p evs).log = waits s.log := by
  refine ⟨?_, ?_, ?_⟩
  · show enters (s.log ++ _) = _
    rw [enters_append, h1, List.append_nil]
  · show sends (s.log ++ _) = _
    rw [sends_append, h2, List.append_nil]
  · show waits (s.log ++ _) = _
    rw [waits_append, h3, List.append_nil]

/-- A move inside one part of `run` (before line 74, in the duplication part, or
after the signal) that records no ring event keeps the ring invariant. -/
lemma ringInv_advance (cfg : Cfg) (s : State) (k : Nat) (p : PC) (evs : List Call)
    (h : RingInv cfg s)
    (h1 : enters (evs.map (fun c => (k, c))) = [])
    (h2 : sends (evs.map (fun c => (k, c))) = [])
    (h3 : waits (evs.map (fun c => (k, c))) = [])
    (hent : p.entered = (s.pc k).entered) (hsig : p.signalled = (s.pc k).signalled) :
    RingInv cfg (s.advance k p evs) := by
  obtain ⟨e1, e2, e3⟩ := ring_lists_advance s k p evs h1 h2 h3
  exact ringInv_silent cfg s _ h rfl e1 e2 e3
    (update_flag PC.entered s.pc k p hent) (update_flag PC.signalled s.pc k p hsig)

/-- Every move keeps the ring invariant. -/
lemma ringInv_step (cfg : Cfg) (k : Nat) (s s1 : State) (hk : k < cfg.num_threads)
    (hst : Step cfg k s s1) (h : RingInv cfg s) : RingInv cfg s1 := by
  cases hst with
  | fail evs hevs h1 =>
    subst h1
    refine ringInv_silent cfg s _ h rfl ?_ ?_ ?_ (fun _ => rfl) (fun _ => rfl)
    · show enters (s.log ++ _ ++ _) = _
      rw [enters_append, enters_append]
      rcases hevs with rfl | ⟨seed, rfl⟩ <;> simp [enters]
    · show sends (s.log ++ _ ++ _) = _
      rw [sends_append, sends_append]
      rcases hevs with rfl | ⟨seed, rfl⟩ <;> simp [sends]
    · show waits (s.log ++ _ ++ _) = _
      rw [waits_append, waits_append]
      rcases hevs with rfl | ⟨seed, rfl⟩ <;> simp [waits]
  | queries hpc h1 =>
    subst h1
    exact ringInv_advance cfg s k _ _ h rfl rfl rfl (by rw [hpc]; rfl) (by rw [hpc]; rfl)
  | wait0 hk0 hpc h1 =>
    subst h1; subst hk0
    exact ringInv_wait0 cfg s h hk hpc
  | wait hk0 hpc hslot h1 =>
    subst h1
    exact ringInv_wait cfg s k h hk hk0 hpc hslot
  | alloc hpc h1 =>
    subst h1
    exact ringInv_advance cfg s k _ _ h rfl rfl rfl
      (by rw [hpc, (dupLoop_flags cfg 0).1]; rfl) (by rw [hpc, (dupLoop_flags cfg 0).2]; rfl)
  | dup i hpc h1 =>
    subst h1
    exact ringInv_advance cfg { s with
        new_comms := Function.update s.new_comms k (s.new_comms k ++ [s.next]),
        next := s.next + 1 } k _ _
      { count_le := h.count_le, enters_eq := h.enters_eq, entered_iff := h.entered_iff,
        signalled_below := h.signalled_below, signalled_entered := h.signalled_entered,
        slots := h.slots, sends_eq := h.sends_eq, waits_eq := h.waits_eq }
      rfl rfl rfl
      (by show _ = (s.pc k).entered; rw [hpc, (dupLoop_flags cfg _).1]; rfl)
      (by show _ = (s.pc k).signalled; rw [hpc, (dupLoop_flags cfg _).2]; rfl)
  | signal hpc h1 =>
    subst h1
    exact ringInv_signal cfg s k h hpc
  | bcast i hpc h1 =>
    subst h1
    exact ringInv_advance cfg s k _ _ h rfl rfl rfl
      (by rw [hpc, (bcastLoop_flags cfg _).1]; rfl)
      (by rw [hpc, (bcastLoop_flags cfg _).2]; rfl)
  | free i hpc h1 =>
    subst h1
    exact ringInv_advance cfg s k _ _ h rfl rfl rfl
      (by rw [hpc, (freeLoop_flags cfg _).1]; rfl)
      (by rw [hpc, (freeLoop_flags cfg _).2]; rfl)

/-- The ring invariant holds in every state the threads reach. -/
lemma ringInv_reach (cfg : Cfg) (sched : List (Nat × Bool)) :
    RingInv cfg (reach cfg sched) :=
  exec_induction cfg (RingInv cfg) (fun k s s1 hk hst h => ringInv_step cfg k s s1 hk hst h)
    sched _ (ringInv_initial cfg)

/-! ### The communicator handles -/

lemma dups_append (l1 l2 : List (Nat × Call)) : dups (l1 ++ l2) = dups l1 ++ dups l2 := by
  simp [dups, List.filterMap_append]

lemma dupsBy_append (k : Nat) (l1 l2 : List (Nat × Call)) :
    dupsBy k (l1 ++ l2) = dupsBy k l1 ++ dupsBy k l2 := by
  simp [dupsBy, List.filterMap_append]

lemma frees_append (l1 l2 : List (Nat × Call)) :
    frees (l1 ++ l2) = frees l1 ++ frees l2 := by
  simp [frees, List.filterMap_append]

lemma freesBy_append (k : Nat) (l1 l2 : List (Nat × Call)) :
    freesBy k (l1 ++ l2) = freesBy k l1 ++ freesBy k l2 := by
  simp [freesBy, List.filterMap_append]

/-- When one of the lists that are concatenated gets a new last element, the
concatenation gets the same new element, up to the order of the elements. -/
lemma flatMap_update_perm (f g : Nat → List Nat) (k x : Nat)
    (hg : ∀ j, j ≠ k → g j = f j) (hgk : g k = f k ++ [x]) :
    ∀ l : List Nat, l.Nodup → k ∈ l → (l.flatMap g).Perm (l.flatMap f ++ [x]) := by
  intro l
  induction l with
  | nil => intro _ hk; simp at hk
  | cons a l ih =>
    intro hnd hk
    rw [List.nodup_cons] at hnd
    simp only [List.flatMap_cons]
    by_cases hak : a = k
    · subst hak
      have hrest : l.flatMap g = l.flatMap f :=
        List.flatMap_congr (fun j hj => hg j (fun h => hnd.1 (h ▸ hj)))
      rw [hgk, hrest, List.append_assoc, List.append_assoc]
      exact List.Perm.append_left _ List.perm_append_comm
    · have hkl : k ∈ l := by
        rcases List.mem_cons.mp hk with h | h
        · exact absurd h.symm hak
        · exact h
      rw [hg a hak, List.append_assoc]
      exact List.Perm.append_left _ (ih hnd.2 hkl)

/-- The handle invariant holds in the initial state. -/
lemma handleInv_initial (cfg : Cfg) : HandleInv cfg (State.initial cfg) where
  wf_dup := by intro k i h; simp [State.initial] at h
  wf_free := by intro k i h; simp [State.initial] at h
  len := by intro k; simp [State.initial, PC.dupCount]
  dups_eq := by simp [State.initial, dups]
  dupsBy_eq := by intro k; simp [State.initial, dupsBy]
  freesBy_eq := by intro k; simp [State.initial, freesBy, State.freed]
  perm_dups := by simp [State.initial]
  perm_frees := by simp [State.initial, frees, State.freed]

/-- A move that creates and frees no handle and leaves the two counts of every place
as they were keeps the handle invariant. -/
lemma handleInv_silent (cfg : Cfg) (s s1 : State) (h : HandleInv cfg s)
    (hnc : s1.new_comms = s.new_comms) (hnext : s1.next = s.next)
    (h1 : dups s1.log = dups s.log) (h2 : ∀ k, dupsBy k s1.log = dupsBy k s.log)
    (h3 : frees s1.log = frees s.log) (h4 : ∀ k, freesBy k s1.log = freesBy k s.log)
    (hd : ∀ j, (s1.pc j).dupCount cfg.num_threads = (s.pc j).dupCount cfg.num_threads)
    (hf : ∀ j, (s1.pc j).freeCount cfg.num_threads = (s.pc j).freeCount cfg.num_threads)
    (hwd : ∀ k i, s1.pc k = PC.dup i → i < cfg.num_threads)
    (hwf : ∀ k i, s1.pc k = PC.free i → i < cfg.num_threads) : HandleInv cfg s1 := by
  have hfreed : s1.freed cfg = s.freed cfg := by
    funext k
    simp [State.freed, hnc, hf]
  exact {
    wf_dup := hwd
    wf_free := hwf
    len := by intro k; rw [hnc, hd]; exact h.len k
    dups_eq := by rw [h1, hnext]; exact h.dups_eq
    dupsBy_eq := by intro k; rw [h2, hnc]; exact h.dupsBy_eq k
    freesBy_eq := by intro k; rw [h4, hfreed]; exact h.freesBy_eq k
    perm_dups := by rw [hnc, hnext]; exact h.perm_dups
    perm_frees := by rw [h3, hfreed]; exact h.perm_frees }

/-- A move of thread `k` to a place with the same two counts that records no creation
and no release of a handle keeps the handle invariant. -/
lemma handleInv_advance (cfg : Cfg) (s : State) (k : Nat) (p : PC) (evs : List Call)
    (h : HandleInv cfg s)
    (h1 : dups (evs.map (fun c => (k, c))) = [])
    (h2 : ∀ j, dupsBy j (evs.map (fun c => (k, c))) = [])
    (h3 : frees (evs.map (fun c => (k, c))) = [])
    (h4 : ∀ j, freesBy j (evs.map (fun c => (k, c))) = [])
    (hd : p.dupCount cfg.num_threads = (s.pc k).dupCount cfg.num_threads)
    (hf : p.freeCount cfg.num_threads = (s.pc k).freeCount cfg.num_threads)
    (hwd : ∀ i, p = PC.dup i → i < cfg.num_threads)
    (hwf : ∀ i, p = PC.free i → i < cfg.num_threads) :
    HandleInv cfg (s.advance k p evs) := by
  refine handleInv_silent cfg s _ h rfl rfl ?_ ?_ ?_ ?_ ?_ ?_ ?_ ?_
  · show dups (s.log ++ _) = _
    rw [dups_append, h1, List.append_nil]
  · intro j
    show dupsBy j (s.log ++ _) = _
    rw [dupsBy_append, h2, List.append_nil]
  · show frees (s.log ++ _) = _
    rw [frees_append, h3, List.append_nil]
  · intro j
    show freesBy j (s.log ++ _) = _
    rw [freesBy_append, h4, List.append_nil]
  · intro j
    show (Function.update s.pc k p j).dupCount _ = _
    by_cases hj : j = k
    · subst hj; simp [hd]
    · rw [Function.update_noteq hj]
  · intro j
    show (Function.update s.pc k p j).freeCount _ = _
    by_cases hj : j = k
    · subst hj; simp [hf]
    · rw [Function.update_noteq hj]
  · intro j i hji
    change Function.update s.pc k p j = PC.dup i at hji
    by_cases hj : j = k
    · subst hj; rw [Function.update_same] at hji; exact hwd i hji
    · rw [Function.update_noteq hj] at hji; exact h.wf_dup j i hji
  · intro j i hji
    change Function.update s.pc k p j = PC.free i at hji
    by_cases hj : j = k
    · subst hj; rw [Function.update_same] at hji; exact hwf i hji
    · rw [Function.update_noteq hj] at hji; exact h.wf_free j i hji

/-- The signal slots do not matter for the handle invariant. -/
lemma handleInv_slot (cfg : Cfg) (s : State) (slot : Nat → Bool) (h : HandleInv cfg s) :
    HandleInv cfg { s with slot := slot } :=
  { wf_dup := h.wf_dup, wf_free := h.wf_free, len := h.len, dups_eq := h.dups_eq,
    dupsBy_eq := h.dupsBy_eq, freesBy_eq := h.freesBy_eq, perm_dups := h.perm_dups,
    perm_frees := h.perm_frees }

lemma dupLoop_counts (cfg : Cfg) (i : Nat) (hi : i ≤ cfg.num_threads) :
    (dupLoop cfg i).dupCount cfg.num_threads = i ∧
    (dupLoop cfg i).freeCount cfg.num_threads = 0 ∧
    (∀ j, dupLoop cfg i = PC.dup j → j < cfg.num_threads) ∧
    (∀ j, dupLoop cfg i ≠ PC.free j) := by
  unfold dupLoop
  split
  · rename_i h
    refine ⟨rfl, rfl, ?_, by simp⟩
    intro j hj
    cases hj
    exact h
  · refine ⟨?_, rfl, by simp, by simp⟩
    simp only [PC.dupCount]
    omega

lemma freeLoop_counts (cfg : Cfg) (i : Nat) (hi : i ≤ cfg.num_threads) :
    (freeLoop cfg i).dupCount cfg.num_threads = cfg.num_threads ∧
    (freeLoop cfg i).freeCount cfg.num_threads = i ∧
    (∀ j, freeLoop cfg i ≠ PC.dup j) ∧
    (∀ j, freeLoop cfg i = PC.free j → j < cfg.num_threads) := by
  unfold freeLoop
  split
  · rename_i h
    refine ⟨rfl, rfl, by simp, ?_⟩
    intro j hj
    cases hj
    exact h
  · refine ⟨rfl, ?_, by simp, by simp⟩
    simp only [PC.freeCount]
    omega

lemma bcastLoop_counts (cfg : Cfg) (i : Nat) :
    (bcastLoop cfg i).dupCount cfg.num_threads = cfg.num_threads ∧
    (bcastLoop cfg i).freeCount cfg.num_threads = 0 ∧
    (∀ j, bcastLoop cfg i ≠ PC.dup j) ∧
    (∀ j, bcastLoop cfg i = PC.free j → j < cfg.num_threads) := by
  unfold bcastLoop
  split
  · exact ⟨rfl, rfl, by simp, by simp⟩
  · exact freeLoop_counts cfg 0 (Nat.zero_le _)

/-- A thread creates a handle. -/
lemma handleInv_dup (cfg : Cfg) (s : State) (k i : Nat) (h : HandleInv cfg s)
    (hk : k < cfg.num_threads) (hpc : s.pc k = PC.dup i) :
    HandleInv cfg ({ s with
      new_comms := Function.update s.new_comms k (s.new_comms k ++ [s.next]),
      next := s.next + 1 }.advance k (dupLoop cfg (i + 1)) [Call.comm_dup s.next]) := by
  have hi : i < cfg.num_threads := h.wf_dup k i hpc
  obtain ⟨c1, c2, c3, c4⟩ := dupLoop_counts cfg (i + 1) hi
  have hlen : (s.new_comms k).length = i := by
    have := h.len k
    rw [hpc] at this
    exact this
  have hfreed : ∀ j, ({ s with
      new_comms := Function.update s.new_comms k (s.new_comms k ++ [s.next]),
      next := s.next + 1 }.advance k (dupLoop cfg (i + 1)) [Call.comm_dup s.next]).freed
        cfg j = s.freed cfg j := by
    intro j
    show (Function.update s.new_comms k (s.new_comms k ++ [s.next]) j).take
      ((Function.update s.pc k (dupLoop cfg (i + 1)) j).freeCount cfg.num_threads) = _
    by_cases hj : j = k
    · subst hj
      rw [Function.update_same, Function.update_same, c2]
      simp [State.freed, hpc, PC.freeCount]
    · rw [Function.update_noteq hj, Function.update_noteq hj]
      rfl
  exact {
    wf_dup := by
      intro j i1 hj
      change Function.update s.pc k (dupLoop cfg (i + 1)) j = PC.dup i1 at hj
      by_cases hjk : j = k
      · subst hjk; rw [Function.update_same] at hj; exact c3 i1 hj
      · rw [Function.update_noteq hjk] at hj; exact h.wf_dup j i1 hj
    wf_free := by
      intro j i1 hj
      change Function.update s.pc k (dupLoop cfg (i + 1)) j = PC.free i1 at hj
      by_cases hjk : j = k
      · subst hjk; rw [Function.update_same] at hj; exact absurd hj (c4 i1)
      · rw [Function.update_noteq hjk] at hj; exact h.wf_free j i1 hj
    len := by
      intro j
      show (Function.update s.new_comms k (s.new_comms k ++ [s.next]) j).length =
        (Function.update s.pc k (dupLoop cfg (i + 1)) j).dupCount cfg.num_threads
      by_cases hjk : j = k
      · subst hjk; simp [c1, hlen]
      · rw [Function.update_noteq hjk, Function.update_noteq hjk]; exact h.len j
    dups_eq := by
      show dups (s.log ++ [(k, Call.comm_dup s.next)]) = List.range (s.next + 1)
      rw [dups_append, h.dups_eq, List.range_succ]
      rfl
    dupsBy_eq := by
      intro j
      show dupsBy j (s.log ++ [(k, Call.comm_dup s.next)]) =
        Function.update s.new_comms k (s.new_comms k ++ [s.next]) j
      rw [dupsBy_append, h.dupsBy_eq]
      by_cases hjk : j = k
      · subst hjk; simp [dupsBy]
      · rw [Function.update_noteq hjk]
        have : k ≠ j := fun e => hjk e.symm
        simp [dupsBy, this]
    freesBy_eq := by
      intro j
      rw [hfreed j]
      show freesBy j (s.log ++ [(k, Call.comm_dup s.next)]) = _
      rw [freesBy_append, h.freesBy_eq]
      simp [freesBy]
    perm_dups := by
      show ((List.range cfg.num_threads).flatMap
        (Function.update s.new_comms k (s.new_comms k ++ [s.next]))).Perm
          (List.range (s.next + 1))
      rw [List.range_succ]
      refine (flatMap_update_perm s.new_comms _ k s.next
        (fun j hj => Function.update_noteq hj _ _) (Function.update_same _ _ _) _
        (List.nodup_range _) (List.mem_range.mpr hk)).trans ?_
      exact List.Perm.append_right _ h.perm_dups
    perm_frees := by
      have : ({ s with
          new_comms := Function.update s.new_comms k (s.new_comms k ++ [s.next]),
          next := s.next + 1 }.advance k (dupLoop cfg (i + 1)) [Call.comm_dup s.next]).freed
            cfg = s.freed cfg := funext hfreed
      rw [this]
      show (frees (s.log ++ [(k, Call.comm_dup s.next)])).Perm _
      rw [frees_append]
      simpa [frees] using h.perm_frees }

/-- A thread frees a handle. -/
lemma handleInv_free (cfg : Cfg) (s : State) (k i : Nat) (h : HandleInv cfg s)
    (hk : k < cfg.num_threads) (hpc : s.pc k = PC.free i) :
    HandleInv cfg (s.advance k (freeLoop cfg (i + 1))
      [Call.comm_free (s.new_comms k)[i]?]) := by
  have hi : i < cfg.num_threads := h.wf_free k i hpc
  obtain ⟨c1, c2, c3, c4⟩ := freeLoop_counts cfg (i + 1) hi
  have hlen : (s.new_comms k).length = cfg.num_threads := by
    have := h.len k
    rw [hpc] at this
    exact this
  obtain ⟨x, hx⟩ : ∃ x, (s.new_comms k)[i]? = some x :=
    ⟨_, List.getElem?_eq_getElem (by omega)⟩
  rw [hx]
  have hfk : (s.advance k (freeLoop cfg (i + 1)) [Call.comm_free (some x)]).freed cfg k =
      s.freed cfg k ++ [x] := by
    show (s.new_comms k).take
      ((Function.update s.pc k (freeLoop cfg (i + 1)) k).freeCount cfg.num_threads) = _
    rw [Function.update_same, c2, List.take_succ, hx]
    simp [State.freed, hpc, PC.freeCount]
  have hfj : ∀ j, j ≠ k →
      (s.advance k (freeLoop cfg (i + 1)) [Call.comm_free (some x)]).freed cfg j =
        s.freed cfg j := by
    intro j hj
    show (s.new_comms j).take
      ((Function.update s.pc k (freeLoop cfg (i + 1)) j).freeCount cfg.num_threads) = _
    rw [Function.update_noteq hj]
    rfl
  exact {
    wf_dup := by
      intro j i1 hj
      change Function.update s.pc k (freeLoop cfg (i + 1)) j = PC.dup i1 at hj
      by_cases hjk : j = k
      · subst hjk; rw [Function.update_same] at hj; exact absurd hj (c3 i1)
      · rw [Function.update_noteq hjk] at hj; exact h.wf_dup j i1 hj
    wf_free := by
      intro j i1 hj
      change Function.update s.pc k (freeLoop cfg (i + 1)) j = PC.free i1 at hj
      by_cases hjk : j = k
      · subst hjk; rw [Function.update_same] at hj; exact c4 i1 hj
      · rw [Function.update_noteq hjk] at hj; exact h.wf_free j i1 hj
    len := by
      intro j
      show (s.new_comms j).length =
        (Function.update s.pc k (freeLoop cfg (i + 1)) j).dupCount cfg.num_threads
      by_cases hjk : j = k
      · subst hjk; rw [Function.update_same, c1, hlen]
      · rw [Function.update_noteq hjk]; exact h.len j
    dups_eq := by
      show dups (s.log ++ [(k, Call.comm_free (some x))]) = List.range s.next
      rw [dups_append, h.dups_eq]
      simp [dups]
    dupsBy_eq := by
      intro j
      show dupsBy j (s.log ++ [(k, Call.comm_free (some x))]) = s.new_comms j
      rw [dupsBy_append, h.dupsBy_eq]
      simp [dupsBy]
    freesBy_eq := by
      intro j
      show freesBy j (s.log ++ [(k, Call.comm_free (some x))]) = _
      rw [freesBy_append, h.freesBy_eq]
      by_cases hjk : j = k
      · subst hjk; rw [hfk]; simp [freesBy]
      · rw [hfj j hjk]
        have : k ≠ j := fun e => hjk e.symm
        simp [freesBy, this]
    perm_dups := h.perm_dups
    perm_frees := by
      show (frees (s.log ++ [(k, Call.comm_free (some x))])).Perm _
      rw [frees_append]
      have hp := flatMap_update_perm (s.freed cfg)
        ((s.advance k (freeLoop cfg (i + 1)) [Call.comm_free (some x)]).freed cfg) k x
        hfj hfk _ (List.nodup_range _) (List.mem_range.mpr hk)
      refine List.Perm.trans ?_ hp.symm
      exact List.Perm.append_right _ h.perm_frees }

/-- Every move keeps the handle invariant. -/
lemma handleInv_step (cfg : Cfg) (k : Nat) (s s1 : State) (hk : k < cfg.num_threads)
    (hst : Step cfg k s s1) (h : HandleInv cfg s) : HandleInv cfg s1 := by
  cases hst with
  | fail evs hevs h1 =>
    subst h1
    refine handleInv_silent cfg s _ h rfl rfl ?_ ?_ ?_ ?_ (fun _ => rfl) (fun _ => rfl)
      h.wf_dup h.wf_free
    · show dups (s.log ++ _ ++ _) = _
      rw [dups_append, dups_append]
      rcases hevs with rfl | ⟨seed, rfl⟩ <;> simp [dups]
    · intro j
      show dupsBy j (s.log ++ _ ++ _) = _
      rw [dupsBy_append, dupsBy_append]
      rcases hevs with rfl | ⟨seed, rfl⟩ <;> simp [dupsBy]
    · show frees (s.log ++ _ ++ _) = _
      rw [frees_append, frees_append]
      rcases hevs with rfl | ⟨seed, rfl⟩ <;> simp [frees]
    · intro j
      show freesBy j (s.log ++ _ ++ _) = _
      rw [freesBy_append, freesBy_append]
      rcases hevs with rfl | ⟨seed, rfl⟩ <;> simp [freesBy]
  | queries hpc h1 =>
    subst h1
    exact handleInv_advance cfg s k _ _ h rfl (fun _ => rfl) rfl (fun _ => rfl)
      (by rw [hpc]; rfl) (by rw [hpc]; rfl) (by simp) (by simp)
  | wait0 hk0 hpc h1 =>
    subst h1
    exact handleInv_advance cfg s k _ _ h rfl (fun _ => rfl) rfl (fun _ => rfl)
      (by rw [hpc]; rfl) (by rw [hpc]; rfl) (by simp) (by simp)
  | wait hk0 hpc hslot h1 =>
    subst h1
    exact handleInv_advance cfg _ k _ _ (handleInv_slot cfg s _ h) rfl (fun _ => rfl) rfl
      (fun _ => rfl) (by show _ = (s.pc k).dupCount _; rw [hpc]; rfl)
      (by show _ = (s.pc k).freeCount _; rw [hpc]; rfl) (by simp) (by simp)
  | alloc hpc h1 =>
    subst h1
    obtain ⟨c1, c2, c3, c4⟩ := dupLoop_counts cfg 0 (Nat.zero_le _)
    exact handleInv_advance cfg s k _ _ h rfl (fun _ => rfl) rfl (fun _ => rfl)
      (by rw [hpc, c1]; rfl) (by rw [hpc, c2]; rfl) c3 (fun i hi => absurd hi (c4 i))
  | dup i hpc h1 =>
    subst h1
    exact handleInv_dup cfg s k i h hk hpc
  | signal hpc h1 =>
    subst h1
    obtain ⟨c1, c2, c3, c4⟩ := bcastLoop_counts cfg 0
    exact handleInv_advance cfg _ k _ _ (handleInv_slot cfg s _ h) rfl (fun _ => rfl) rfl
      (fun _ => rfl) (by show _ = (s.pc k).dupCount _; rw [hpc, c1]; rfl)
      (by show _ = (s.pc k).freeCount _; rw [hpc, c2]; rfl)
      (fun i hi => absurd hi (c3 i)) c4
  | bcast i hpc h1 =>
    subst h1
    obtain ⟨c1, c2, c3, c4⟩ := bcastLoop_counts cfg (i + 1)
    exact handleInv_advance cfg s k _ _ h rfl (fun _ => rfl) rfl (fun _ => rfl)
      (by rw [hpc, c1]; rfl) (by rw [hpc, c2]; rfl) (fun i hi => absurd hi (c3 i)) c4
  | free i hpc h1 =>
    subst h1
    exact handleInv_free cfg s k i h hk hpc

/-- The handle invariant holds in every state the threads reach. -/
lemma handleInv_reach (cfg : Cfg) (sched : List (Nat × Bool)) :
    HandleInv cfg (reach cfg sched) :=
  exec_induction cfg (HandleInv cfg)
    (fun k s s1 hk hst h => handleInv_step cfg k s s1 hk hst h) sched _
    (handleInv_initial cfg)

/-- A place in the duplication part is past line 74 and before the signal. -/
lemma inSection_flags (p : PC) (h : p.inSection = true) :
    p.entered = true ∧ p.signalled = false := by
  cases p <;> simp_all [PC.inSection, PC.entered, PC.signalled]

/-- A thread that has executed its signal has filled its whole array. -/
lemma dupCount_of_signalled (n : Nat) (p : PC) (h : p.signalled = true) :
    p.dupCount n = n := by
  cases p <;> simp_all [PC.signalled, PC.dupCount]

/-- When every thread has returned, all of them have passed line 74. -/
lemma entCount_of_allDone (cfg : Cfg) (s : State) (h : RingInv cfg s)
    (hd : allDone cfg s) : s.entCount = cfg.num_threads := by
  have hle := h.count_le
  rcases Nat.eq_zero_or_pos cfg.num_threads with h0 | hpos
  · omega
  · have h1 : (s.pc (cfg.num_threads - 1)).entered = true := by
      rw [hd _ (by omega)]; rfl
    have := (h.entered_iff _).mp h1
    omega

/-- The signalled indices `(k + 1) % n` for `k < n` are pairwise different. -/
lemma succ_mod_nodup (n : Nat) :
    ((List.range n).map (fun k => (k + 1) % n)).Nodup := by
  apply List.Nodup.map_on _ (List.nodup_range n)
  intro x hx y hy hxy
  rw [List.mem_range] at hx hy
  rcases Nat.lt_or_ge (x + 1) n with h1 | h1 <;> rcases Nat.lt_or_ge (y + 1) n with h2 | h2
  · rw [Nat.mod_eq_of_lt h1, Nat.mod_eq_of_lt h2] at hxy; omega
  · have : y + 1 = n := by omega
    rw [Nat.mod_eq_of_lt h1, this, Nat.mod_self] at hxy; omega
  · have : x + 1 = n := by omega
    rw [Nat.mod_eq_of_lt h2, this, Nat.mod_self] at hxy; omega
  · omega

/-- Every index below `n` is `(k + 1) % n` for some `k < n`. -/
lemma succ_mod_mem (n j : Nat) (hj : j < n) :
    j ∈ (List.range n).map (fun k => (k + 1) % n) := by
  rw [List.mem_map]
  rcases Nat.eq_zero_or_pos j with h0 | hpos
  · refine ⟨n - 1, by rw [List.mem_range]; omega, ?_⟩
    have : n - 1 + 1 = n := by omega
    rw [this, Nat.mod_self, h0]
  · refine ⟨j - 1, by rw [List.mem_range]; omega, ?_⟩
    have : j - 1 + 1 = j := by omega
    rw [this, Nat.mod_eq_of_lt hj]

/-- C6: in every state that the threads of one process reach while they execute
`tst_threaded_comm_dup_run`, at most one thread is in the part that duplicates
communicators; thread `k + 1` has passed line 74 only if thread `k` has executed its
signal; the threads have passed line 74 in the order `0, 1, ...` of their indices, and
in the order `0, 1, ..., N-1` once all have returned; only threads other than thread 0
have waited, each on its own index, and each thread other than thread 0 that has
passed line 74 has waited before; every signal sent by a thread `k` went to index
`(k + 1) mod N`, and its sender was past its duplication loop. -/
theorem ring_order_and_exclusion (cfg : Cfg) (sched : List (Nat × Bool)) :
    (∀ j k, ((reach cfg sched).pc j).inSection = true →
      ((reach cfg sched).pc k).inSection = true → j = k) ∧
    (∀ k, ((reach cfg sched).pc (k + 1)).entered = true →
      ((reach cfg sched).pc k).signalled = true) ∧
    (∃ m, m ≤ cfg.num_threads ∧ enters (reach cfg sched).log = List.range m) ∧
    (allDone cfg (reach cfg sched) →
      enters (reach cfg sched).log = List.range cfg.num_threads) ∧
    (∀ p ∈ waits (reach cfg sched).log, p.1 = p.2 ∧ p.1 ≠ 0) ∧
    (∀ k ∈ enters (reach cfg sched).log, k ≠ 0 → (k, k) ∈ waits (reach cfg sched).log) ∧
    (∀ p ∈ sends (reach cfg sched).log, p.2 = (p.1 + 1) % cfg.num_threads ∧
      ((reach cfg sched).pc p.1).signalled = true ∧
      (dupsBy p.1 (reach cfg sched).log).length = cfg.num_threads) := by
  have h := ringInv_reach cfg sched
  have hsec : ∀ j, ((reach cfg sched).pc j).inSection = true →
      j + 1 = (reach cfg sched).entCount := by
    intro j hj
    obtain ⟨h1, h2⟩ := inSection_flags _ hj
    have h3 := (h.entered_iff j).mp h1
    have h4 : ¬ j + 1 < (reach cfg sched).entCount := by
      intro hlt
      rw [h.signalled_below j hlt] at h2
      cases h2
    omega
  refine ⟨?_, ?_, ?_, ?_, ?_, ?_, ?_⟩
  · intro j k hj hk
    have := hsec j hj
    have := hsec k hk
    omega
  · intro k hk
    exact h.signalled_below k ((h.entered_iff (k + 1)).mp hk)
  · exact ⟨_, h.count_le, h.enters_eq⟩
  · intro hd
    rw [h.enters_eq, entCount_of_allDone cfg _ h hd]
  · intro p hp
    rw [h.waits_eq, List.mem_map] at hp
    obtain ⟨k, _, rfl⟩ := hp
    exact ⟨rfl, by simp⟩
  · intro k hk hk0
    rw [h.enters_eq, List.mem_range] at hk
    rw [h.waits_eq, List.mem_map]
    refine ⟨k - 1, by rw [List.mem_range]; omega, ?_⟩
    have : k - 1 + 1 = k := by omega
    rw [this]
  · intro p hp
    rw [h.sends_eq, List.mem_map] at hp
    obtain ⟨k, hk, rfl⟩ := hp
    rw [List.mem_range] at hk
    have hsig : ((reach cfg sched).pc k).signalled = true := by
      unfold State.sigCount at hk
      split at hk
      · rename_i hc
        by_cases hk2 : k + 1 < (reach cfg sched).entCount
        · exact h.signalled_below k hk2
        · have : k = (reach cfg sched).entCount - 1 := by omega
          rw [this]; exact hc.2
      · exact h.signalled_below k (by omega)
    refine ⟨rfl, hsig, ?_⟩
    have hh := handleInv_reach cfg sched
    simp only
    rw [hh.dupsBy_eq, hh.len]
    exact dupCount_of_signalled _ _ hsig

/-- C10: once all `N ≥ 1` threads have returned from `run`, exactly `N` signals have
been sent, the one of thread `k` to index `(k + 1) mod N`, so that each index
`0 .. N-1` has been signalled once; exactly `N - 1` signals have been consumed by a
wait, one for each index `1 .. N-1` and none for index 0; the signal for index 0,
sent by thread `N - 1`, is still latched, and no other slot is signalled. -/
theorem signals_sent_and_consumed (cfg : Cfg) (sched : List (Nat × Bool))
    (hN : 1 ≤ cfg.num_threads) (hd : allDone cfg (reach cfg sched)) :
    sends (reach cfg sched).log =
      (List.range cfg.num_threads).map (fun k => (k, (k + 1) % cfg.num_threads)) ∧
    (sends (reach cfg sched).log).length = cfg.num_threads ∧
    (∀ j, j < cfg.num_threads →
      ((sends (reach cfg sched).log).map Prod.snd).count j = 1) ∧
    waits (reach cfg sched).log =
      (List.range (cfg.num_threads - 1)).map (fun k => (k + 1, k + 1)) ∧
    (waits (reach cfg sched).log).length = cfg.num_threads - 1 ∧
    (∀ j, 1 ≤ j → j < cfg.num_threads →
      ((waits (reach cfg sched).log).map Prod.snd).count j = 1) ∧
    ((waits (reach cfg sched).log).map Prod.snd).count 0 = 0 ∧
    (cfg.num_threads - 1, 0) ∈ sends (reach cfg sched).log ∧
    (reach cfg sched).slot 0 = true ∧
    (∀ j, j ≠ 0 → (reach cfg sched).slot j = false) := by
  have h := ringInv_reach cfg sched
  have hm := entCount_of_allDone cfg _ h hd
  have hlast : ((reach cfg sched).pc (cfg.num_threads - 1)).signalled = true := by
    rw [hd _ (by omega)]; rfl
  have hc : (reach cfg sched).sigCount = cfg.num_threads := by
    unfold State.sigCount
    rw [hm, if_pos ⟨by omega, hlast⟩]
  have hs := h.sends_eq
  have hw := h.waits_eq
  rw [hc] at hs
  rw [hm] at hw
  have hsnd : (sends (reach cfg sched).log).map Prod.snd =
      (List.range cfg.num_threads).map (fun k => (k + 1) % cfg.num_threads) := by
    rw [hs, List.map_map]; rfl
  have hwsnd : (waits (reach cfg sched).log).map Prod.snd =
      (List.range (cfg.num_threads - 1)).map (fun k => k + 1) := by
    rw [hw, List.map_map]; rfl
  refine ⟨hs, by rw [hs]; simp, ?_, hw, by rw [hw]; simp, ?_, ?_, ?_, ?_, ?_⟩
  · intro j hj
    rw [hsnd]
    exact List.count_eq_one_of_mem (succ_mod_nodup _) (succ_mod_mem _ j hj)
  · intro j hj1 hj
    rw [hwsnd]
    apply List.count_eq_one_of_mem
    · exact List.Nodup.map (fun a b hab => by simpa using hab) (List.nodup_range _)
    · rw [List.mem_map]
      exact ⟨j - 1, by rw [List.mem_range]; omega, by omega⟩
  · rw [hwsnd, List.count_eq_zero]
    simp
  · rw [hs, List.mem_map]
    refine ⟨cfg.num_threads - 1, by rw [List.mem_range]; omega, ?_⟩
    have : cfg.num_threads - 1 + 1 = cfg.num_threads := by omega
    rw [this, Nat.mod_self]
  · rw [h.slots 0, hm, Nat.mod_self]
    exact ⟨by omega, hlast, rfl⟩
  · intro j hj
    by_contra hne
    have hs1 : (reach cfg sched).slot j = true := by simpa using hne
    have := ((h.slots j).mp hs1).2.2
    rw [hm, Nat.mod_self] at this
    exact hj this

/-- The arrays of two different threads have no handle in common. -/
lemma new_comms_disjoint (cfg : Cfg) (s : State) (h : HandleInv cfg s) (j k x : Nat)
    (hj : j < cfg.num_threads) (hk : k < cfg.num_threads)
    (hxj : x ∈ s.new_comms j) (hxk : x ∈ s.new_comms k) : j = k := by
  by_contra hne
  have hnd : ((List.range cfg.num_threads).flatMap s.new_comms).Nodup :=
    (h.perm_dups.nodup_iff).mpr (List.nodup_range _)
  have hpw := (List.nodup_flatMap.mp hnd).2
  have hsym : Symmetric (Function.onFun List.Disjoint s.new_comms) := by
    intro a b hab
    exact List.Disjoint.symm hab
  have := List.Pairwise.forall hsym hpw (List.mem_range.mpr hj) (List.mem_range.mpr hk) hne
  exact this hxj hxk

/-- C4 (amended): in every state the threads reach, the handles created are pairwise
distinct, and a thread that is between its duplication loop and its free loop has
created `T` handles, all of which exist.  Once all threads have returned from `run`,
each thread has created `T` handles and has freed exactly the handles it created;
`T * T` handles have been created in all; each of them has been freed exactly once;
none is left.  `cleanup` frees no communicator. -/
theorem each_thread_dups_and_frees_own_handles (cfg : Cfg) (sched : List (Nat × Bool)) :
    (dups (reach cfg sched).log).Nodup ∧
    (∀ k, ((reach cfg sched).pc k = PC.signal ∨ ∃ i, (reach cfg sched).pc k = PC.bcast i) →
      (dupsBy k (reach cfg sched).log).length = cfg.num_threads ∧
      ∀ h ∈ dupsBy k (reach cfg sched).log, h ∈ live (reach cfg sched).log) ∧
    (allDone cfg (reach cfg sched) →
      (∀ k, k < cfg.num_threads →
        (dupsBy k (reach cfg sched).log).length = cfg.num_threads ∧
        freesBy k (reach cfg sched).log = dupsBy k (reach cfg sched).log) ∧
      (dups (reach cfg sched).log).length = cfg.num_threads * cfg.num_threads ∧
      (∀ h ∈ dups (reach cfg sched).log, (frees (reach cfg sched).log).count h = 1) ∧
      live (reach cfg sched).log = []) ∧
    (∀ k h, Call.comm_free h ∉ tst_threaded_comm_dup_cleanup k) := by
  have hh := handleInv_reach cfg sched
  have hr := ringInv_reach cfg sched
  have hnd : (dups (reach cfg sched).log).Nodup := by
    rw [hh.dups_eq]; exact List.nodup_range _
  refine ⟨hnd, ?_, ?_, ?_⟩
  · intro k hk
    have hent : ((reach cfg sched).pc k).entered = true := by
      rcases hk with h1 | ⟨i, h1⟩ <;> rw [h1] <;> rfl
    have hkN : k < cfg.num_threads :=
      lt_of_lt_of_le ((hr.entered_iff k).mp hent) hr.count_le
    have hdc : ((reach cfg sched).pc k).dupCount cfg.num_threads = cfg.num_threads := by
      rcases hk with h1 | ⟨i, h1⟩ <;> rw [h1] <;> rfl
    have hfc : ((reach cfg sched).pc k).freeCount cfg.num_threads = 0 := by
      rcases hk with h1 | ⟨i, h1⟩ <;> rw [h1] <;> rfl
    refine ⟨by rw [hh.dupsBy_eq, hh.len, hdc], ?_⟩
    intro x hx
    rw [hh.dupsBy_eq] at hx
    have hxd : x ∈ dups (reach cfg sched).log := by
      rw [hh.dups_eq, ← hh.perm_dups.mem_iff, List.mem_flatMap]
      exact ⟨k, List.mem_range.mpr hkN, hx⟩
    have hxf : x ∉ frees (reach cfg sched).log := by
      intro hxf
      rw [hh.perm_frees.mem_iff, List.mem_flatMap] at hxf
      obtain ⟨j, hj, hxj⟩ := hxf
      have hxj2 : x ∈ (reach cfg sched).new_comms j := List.mem_of_mem_take hxj
      have hjk := new_comms_disjoint cfg _ hh j k x (List.mem_range.mp hj) hkN hxj2 hx
      subst hjk
      simp [State.freed, hfc] at hxj
    simp only [live, List.mem_filter, decide_eq_true_eq]
    exact ⟨hxd, hxf⟩
  · intro hd
    have hfreed : ∀ k, k < cfg.num_threads →
        (reach cfg sched).freed cfg k = (reach cfg sched).new_comms k := by
      intro k hk
      have hl := hh.len k
      rw [hd k hk] at hl
      simp only [State.freed, hd k hk, PC.freeCount]
      exact List.take_of_length_le (le_of_eq hl)
    have hperm : (frees (reach cfg sched).log).Perm (dups (reach cfg sched).log) := by
      rw [hh.dups_eq]
      refine hh.perm_frees.trans (List.Perm.trans ?_ hh.perm_dups)
      rw [List.flatMap_congr (fun k hk => hfreed k (List.mem_range.mp hk))]
    refine ⟨?_, ?_, ?_, ?_⟩
    · intro k hk
      have hl := hh.len k
      rw [hd k hk] at hl
      exact ⟨by rw [hh.dupsBy_eq, hl]; rfl, by rw [hh.freesBy_eq, hh.dupsBy_eq, hfreed k hk]⟩
    · rw [hh.dups_eq, ← hh.perm_dups.length_eq, List.length_flatMap]
      have : List.map (List.length ∘ (reach cfg sched).new_comms)
          (List.range cfg.num_threads) =
          List.map (fun _ => cfg.num_threads) (List.range cfg.num_threads) := by
        apply List.map_congr_left
        intro k hk
        have hl := hh.len k
        rw [hd k (List.mem_range.mp hk)] at hl
        exact hl
      rw [this, List.map_const', List.sum_const_nat, List.length_range]
    · intro x hx
      rw [hperm.count_eq]
      exact List.count_eq_one_of_mem hnd hx
    · simp only [live, List.filter_eq_nil_iff, decide_eq_true_eq, not_not]
      intro x hx
      exact hperm.mem_iff.mpr hx
  · intro k h
    unfold tst_threaded_comm_dup_cleanup
    split <;> simp

/-- C4 as stated fails for two threads: when both have returned from `run`, four
handles have been created, not two; the four existed at the same time; and all four
have been freed by the threads in `run`, before `cleanup` is called. -/
theorem two_threads_create_four_handles :
    allDone (sampleCfg 2 1 0 true) (reach (sampleCfg 2 1 0 true) (burst 0 9 ++ burst 1 9)) ∧
    (sampleCfg 2 1 0 true).num_threads = 2 ∧
    dups (reach (sampleCfg 2 1 0 true) (burst 0 9 ++ burst 1 9)).log = [0, 1, 2, 3] ∧
    live (reach (sampleCfg 2 1 0 true) (burst 0 6 ++ burst 1 5)).log = [0, 1, 2, 3] ∧
    frees (reach (sampleCfg 2 1 0 true) (burst 0 9 ++ burst 1 9)).log = [0, 1, 2, 3] := by
  refine ⟨?_, rfl, ?_, ?_, ?_⟩
  · unfold allDone
    decide
  · decide
  · decide
  · decide

/-- Witness for C4 (amended): two threads, run to the end one after the other. -/
theorem each_thread_dups_and_frees_own_handles_witness :
    allDone (sampleCfg 2 1 0 true) (reach (sampleCfg 2 1 0 true) (burst 0 9 ++ burst 1 9)) ∧
    (dups (reach (sampleCfg 2 1 0 true) (burst 0 9 ++ burst 1 9)).log).length = 2 * 2 :=
  ⟨by unfold allDone; decide,
    ((each_thread_dups_and_frees_own_handles (sampleCfg 2 1 0 true)
      (burst 0 9 ++ burst 1 9)).2.2.1 (by unfold allDone; decide)).2.1⟩

/-- Witness for C6: three threads; threads 2 and 1 start first and have to wait. -/
theorem ring_order_and_exclusion_witness :
    allDone (sampleCfg 3 1 0 true)
      (reach (sampleCfg 3 1 0 true) (burst 2 3 ++ burst 1 3 ++ burst 0 11 ++ burst 2 3 ++
        burst 1 11 ++ burst 2 11)) ∧
    enters (reach (sampleCfg 3 1 0 true) (burst 2 3 ++ burst 1 3 ++ burst 0 11 ++
      burst 2 3 ++ burst 1 11 ++ burst 2 11)).log = List.range 3 :=
  ⟨by unfold allDone; decide,
    (ring_order_and_exclusion (sampleCfg 3 1 0 true) (burst 2 3 ++ burst 1 3 ++
      burst 0 11 ++ burst 2 3 ++ burst 1 11 ++ burst 2 11)).2.2.2.1
        (by unfold allDone; decide)⟩

/-- Witness for C10: three threads, run to the end. -/
theorem signals_sent_and_consumed_witness :
    allDone (sampleCfg 3 1 0 true)
      (reach (sampleCfg 3 1 0 true) (burst 2 3 ++ burst 1 3 ++ burst 0 11 ++ burst 2 3 ++
        burst 1 11 ++ burst 2 11)) ∧
    (sends (reach (sampleCfg 3 1 0 true) (burst 2 3 ++ burst 1 3 ++ burst 0 11 ++
      burst 2 3 ++ burst 1 11 ++ burst 2 11)).log).length = 3 ∧
    (reach (sampleCfg 3 1 0 true) (burst 2 3 ++ burst 1 3 ++ burst 0 11 ++
      burst 2 3 ++ burst 1 11 ++ burst 2 11)).slot 0 = true :=
  ⟨by unfold allDone; decide,
    (signals_sent_and_consumed (sampleCfg 3 1 0 true) (burst 2 3 ++ burst 1 3 ++
      burst 0 11 ++ burst 2 3 ++ burst 1 11 ++ burst 2 11) (by decide)
        (by unfold allDone; decide)).2.1,
    (signals_sent_and_consumed (sampleCfg 3 1 0 true) (burst 2 3 ++ burst 1 3 ++
      burst 0 11 ++ burst 2 3 ++ burst 1 11 ++ burst 2 11) (by decide)
        (by unfold allDone; decide)).2.2.2.2.2.2.2.2.1⟩

/-- The events of `init` and `cleanup` of a thread other than thread 0 contain no call
that initialises or tears down the signal ring. -/
lemma lifecycle_other (cfg : Cfg) (k : Nat) (ok : Bool) (hk : k ≠ 0) :
    ((tst_threaded_comm_dup_init cfg k ok ++ tst_threaded_comm_dup_cleanup k).map
      (fun c => (k, c))).filter isSignalInit = [] ∧
    ((tst_threaded_comm_dup_init cfg k ok ++ tst_threaded_comm_dup_cleanup k).map
      (fun c => (k, c))).filter isSignalCleanup = [] := by
  cases ok <;>
    simp [tst_threaded_comm_dup_init, tst_threaded_comm_dup_cleanup, hk, isSignalInit,
      isSignalCleanup]

/-- Filtering a concatenation of lists none of which has an element that passes. -/
lemma filter_flatMap_nil {α β : Type} (p : β → Bool) (f : α → List β) (l : List α)
    (h : ∀ a ∈ l, (f a).filter p = []) : (l.flatMap f).filter p = [] := by
  induction l with
  | nil => rfl
  | cons a l ih =>
    rw [List.flatMap_cons, List.filter_append, h a (by simp),
      ih (fun b hb => h b (by simp [hb]))]
    rfl

/-- C5: for every thread count `T ≥ 1`, when the threads `0 .. T-1` each execute
`tst_threaded_comm_dup_init` and `tst_threaded_comm_dup_cleanup` once (the queries of
thread 0 succeeding), then however their calls interleave, `tst_thread_signal_init` is
called exactly once, by thread 0 with argument `T`, and `tst_thread_signal_cleanup` is
called exactly once, by thread 0. -/
theorem signal_ring_set_up_and_torn_down_once (cfg : Cfg) (ok : Nat → Bool)
    (log : List (Nat × Call)) (hT : 1 ≤ cfg.num_threads) (hok : ok 0 = true)
    (hlog : log.Perm (lifecycleEvents cfg ok)) :
    log.filter isSignalInit = [(0, Call.signal_init cfg.num_threads)] ∧
    log.filter isSignalCleanup = [(0, Call.signal_cleanup)] := by
  obtain ⟨n, hn⟩ : ∃ n, cfg.num_threads = n + 1 := ⟨cfg.num_threads - 1, by omega⟩
  have hrest : ∀ (p : Nat × Call → Bool),
      (∀ k ok1, k ≠ 0 → ((tst_threaded_comm_dup_init cfg k ok1 ++
        tst_threaded_comm_dup_cleanup k).map (fun c => (k, c))).filter p = []) →
      (lifecycleEvents cfg ok).filter p =
        ((tst_threaded_comm_dup_init cfg 0 (ok 0) ++ tst_threaded_comm_dup_cleanup 0).map
          (fun c => (0, c))).filter p := by
    intro p hp
    unfold lifecycleEvents
    rw [hn, List.range_succ_eq_map, List.flatMap_cons, List.filter_append,
      filter_flatMap_nil, List.append_nil]
    intro a ha
    rw [List.mem_map] at ha
    obtain ⟨b, _, rfl⟩ := ha
    exact hp _ _ (Nat.succ_ne_zero b)
  constructor
  · have h1 := hlog.filter isSignalInit
    rw [hrest isSignalInit (fun k ok1 hk => (lifecycle_other cfg k ok1 hk).1), hok] at h1
    exact List.perm_singleton.mp h1
  · have h1 := hlog.filter isSignalCleanup
    rw [hrest isSignalCleanup (fun k ok1 hk => (lifecycle_other cfg k ok1 hk).2), hok] at h1
    exact List.perm_singleton.mp h1

/-- Witness for C5: three threads, every thread running `init` and `cleanup` as a
block. -/
theorem signal_ring_set_up_and_torn_down_once_witness :
    (lifecycleEvents (sampleCfg 3 1 0 true) (fun _ => true)).filter isSignalInit =
      [(0, Call.signal_init 3)] :=
  (signal_ring_set_up_and_torn_down_once (sampleCfg 3 1 0 true) (fun _ => true)
    (lifecycleEvents (sampleCfg 3 1 0 true) (fun _ => true)) (by decide) rfl
    (List.Perm.refl _)).1

/-- In either build, the buffer is filled and checked with the tag of the process and
thread, whatever the round. -/
lemma seeds_are_local (cfg : Cfg) (t i : Nat) :
    fillSeed cfg t i = some (100 * cfg.comm_rank + t) ∧
    verifySeed cfg t i = some (100 * cfg.comm_rank + t) :=
  ⟨rfl, rfl⟩

/-- In a build with `HAVE_MPI_EXTENDED_COLLECTIVES`, on an intra-group communicator,
the root of round `i` is rank `i`, its fill seed is `100 * i + t`, and the seed a
process verifies is the seed of the root exactly when the process is the root. -/
lemma seeds_extended_build (cfg : Cfg) (t i : Nat)
    (hext : cfg.HAVE_MPI_EXTENDED_COLLECTIVES = true)
    (hintra : cfg.commclass = cfg.TST_MPI_INTRA_COMM) :
    bcastRoot cfg i = some (i : Int) ∧
    rootFillSeed cfg t i = some (100 * i + t) ∧
    (verifySeed cfg t i = rootFillSeed cfg t i ↔ cfg.comm_rank = i) := by
  have hroot : bcastRoot cfg i = some (i : Int) := by
    simp [bcastRoot, hext, hintra]
  have hseed : rootFillSeed cfg t i = some (100 * i + t) := by
    simp [rootFillSeed, hroot, fillSeed, bcastRound, bcastTag]
  refine ⟨hroot, hseed, ?_⟩
  rw [hseed, (seeds_are_local cfg t i).2]
  simp only [Option.some.injEq]
  omega

/-- C9 fails in a build without `HAVE_MPI_EXTENDED_COLLECTIVES`: on an intra-group
communicator of two processes, rank 1 and thread 0 call `MPI_Bcast` in round 1 with
root 0, not 1; the root fills its buffer with seed 0, while rank 1 fills and verifies
with seed 100, although its rank equals the round.  The last part is the whole run of
that thread: both rounds are broadcast with root 0. -/
theorem root_is_zero_without_extended_collectives :
    (sampleCfg 1 2 1 false).commclass = (sampleCfg 1 2 1 false).TST_MPI_INTRA_COMM ∧
    bcastRound (sampleCfg 1 2 1 false) 0 1 (some 0) =
      [Call.setstandardarray 100, Call.bcast (some 0) (some 0),
        Call.checkstandardarray 100] ∧
    rootFillSeed (sampleCfg 1 2 1 false) 0 1 = some 0 ∧
    verifySeed (sampleCfg 1 2 1 false) 0 1 = some 100 ∧
    (sampleCfg 1 2 1 false).comm_rank = 1 ∧
    (reach (sampleCfg 1 2 1 false) (burst 0 8)).log =
      [(0, Call.queries), (0, Call.enter), (0, Call.malloc 1), (0, Call.comm_dup 0),
       (0, Call.signal_send 0),
       (0, Call.setstandardarray 100), (0, Call.bcast (some 0) (some 0)),
       (0, Call.checkstandardarray 100),
       (0, Call.setstandardarray 100), (0, Call.bcast (some 0) (some 0)),
       (0, Call.checkstandardarray 100),
       (0, Call.comm_free (some 0))] := by
  decide

end Threaded
